import Mathlib

/-!
Verification of the AnyNode extraction-and-publish pipeline.

The Rust sources are shallowly embedded as pure Lean functions:

* the resumable downloader of src/utils/file.rs acts on file sizes
  (natural numbers) and an abstract HTTP response per attempt;
* the publish pipeline of src/services/locality_upload.rs acts on an
  explicit pipeline state (dedup mappings, in-memory queue, statistics)
  and a scanned directory tree, with external collaborators
  (WhosOnFirst lookup, content store, dedup upsert) supplied as an
  environment of pure functions;
* the extraction scheduler of src/services/extraction.rs acts on a
  per-country locality list and records which tasks were spawned and
  which external tool invocations happened.

Every function additionally reports the externally observable events
(upload calls, tool invocations) so that claims about "no re-upload" or
"tool not invoked" can be stated about traces.
-/

namespace AnyNode

/-! ## Resumable downloader (src/utils/file.rs)

File contents are irrelevant to the verified properties, so files are
modelled by their sizes.  A missing file is `none`.  One HTTP response
(status, content-range total, content-length, body chunk sizes, whether
the body stream ends in an error) drives one attempt. -/

/-- One HTTP response driving one download attempt.  `contentRangeTotal`
is the total parsed from the content-range header of a 206 reply (`none`
when the header is missing or unparseable, which the code maps to the
existing size via `unwrap_or`); `chunks` are the sizes of the body chunks
delivered before the stream ends; `streamError` says the stream ends with
an error after those chunks. -/
structure HttpResponse where
  status : Nat
  contentRangeTotal : Option Nat
  contentLength : Option Nat
  chunks : List Nat
  streamError : Bool
  deriving Repr, DecidableEq

/-- reqwest StatusCode::is_success: 2xx. -/
def isSuccessStatus (s : Nat) : Bool := 200 ≤ s && s < 300

/-- Observable outcome of one download_attempt: whether it returned Ok,
the temp file size afterwards (`none` = temp file absent), the byte
offset carried in the Range request header (`none` = no Range header),
and the final values of the `downloaded` counter and of `total_size`
(both 0 when the attempt failed before they were computed). -/
structure AttemptOutcome where
  ok : Bool
  temp : Option Nat
  rangeRequest : Option Nat
  downloaded : Nat
  total : Nat
  deriving Repr, DecidableEq

/-- The streaming and verification phase of download_attempt
(src/utils/file.rs, lines 155 to 196): open the file in append mode
when resuming (start_byte > 0) or create/truncate it otherwise, write
the body chunks, then fail on a stream error and on a short transfer
(downloaded < total_size with total_size known). -/
def streamAndVerify (temp rangeRequest : Option Nat)
    (startByte totalSize : Nat) (r : HttpResponse) : AttemptOutcome :=
  let existingSize := temp.getD 0
  let base := if startByte > 0 then existingSize else 0
  let written := base + r.chunks.sum
  let downloaded := startByte + r.chunks.sum
  if r.streamError then
    ⟨false, some written, rangeRequest, downloaded, totalSize⟩
  else if totalSize > 0 && downloaded < totalSize then
    ⟨false, some written, rangeRequest, downloaded, totalSize⟩
  else
    ⟨true, some written, rangeRequest, downloaded, totalSize⟩

/-- Embedding of download_attempt (src/utils/file.rs, lines 85 to 196).
`temp` is the state of the temp file before the attempt; the header
analysis of lines 98 to 153 determines the Range request, the start
byte and the expected total (or fails on an HTTP error status). -/
def downloadAttempt (temp : Option Nat) (r : HttpResponse) : AttemptOutcome :=
  let existingSize := temp.getD 0
  let rangeRequest := if existingSize > 0 then some existingSize else none
  let header : Option (Nat × Nat) :=
    if existingSize > 0 then
      if r.status = 206 then
        some (existingSize, r.contentRangeTotal.getD existingSize)
      else if isSuccessStatus r.status then
        some (0, r.contentLength.getD 0)
      else none
    else
      if isSuccessStatus r.status then some (0, r.contentLength.getD 0)
      else none
  match header with
  | none => ⟨false, temp, rangeRequest, 0, 0⟩
  | some (startByte, totalSize) =>
    streamAndVerify temp rangeRequest startByte totalSize r

/-- Sizes of the temp file and of the file at the destination path
(`none` = absent). -/
structure DlState where
  temp : Option Nat
  dest : Option Nat
  deriving Repr, DecidableEq

def MAX_RETRIES : Nat := 5

/-- Retry loop body of download_file_with_progress (src/utils/file.rs,
lines 31 to 52).  `env attempt` is the response the server gives to
attempt number `attempt`; `fuel` counts the remaining loop iterations
(`MAX_RETRIES` at the start).  Returns the final state and whether the
download succeeded.  On success the temp file is renamed onto the
destination; on the final failure the temp file is deleted. -/
def downloadGo (env : Nat → HttpResponse) : Nat → Nat → DlState → DlState × Bool
  | _, 0, st => (st, false)
  | attempt, fuel + 1, st =>
    let out := downloadAttempt st.temp (env attempt)
    if out.ok then (⟨none, out.temp⟩, true)
    else if attempt < MAX_RETRIES then
      downloadGo env (attempt + 1) fuel ⟨out.temp, st.dest⟩
    else (⟨none, st.dest⟩, false)

/-- Embedding of download_file_with_progress (src/utils/file.rs, lines
27 to 58): up to MAX_RETRIES attempts starting at attempt 1. -/
def downloadFileWithProgress (env : Nat → HttpResponse) (st : DlState) :
    DlState × Bool :=
  downloadGo env 1 MAX_RETRIES st

/-! ## Upload queue, statistics and pending/completed uploads

The repository snapshot does not contain src/types/storage.rs, which
declares PendingUpload, CompletedUpload, UploadQueue and UploadStats
(they are re-exported by src/types/mod.rs and used throughout
src/services/locality_upload.rs).  These four types are therefore
modelled from the spec. -/

/-- Modelled from the spec: PendingUpload of the missing
src/types/storage.rs, "{country_code, region_id, local_file_path}".
The local file path <localities_dir>/<country_code>/<stem>.pmtiles is
represented by the pair (country_code, stem). -/
structure PendingUpload where
  country_code : String
  locality_id : Nat
  stem : String
  deriving Repr, DecidableEq

/-- Modelled from the spec: CompletedUpload of the missing
src/types/storage.rs, "{country_code, region_id, content_id,
file_size_bytes}". -/
structure CompletedUpload where
  country_code : String
  locality_id : Nat
  cid : String
  file_size : Nat
  deriving Repr, DecidableEq

/-- Modelled from the spec: UploadStats of the missing
src/types/storage.rs, "{total_uploaded: count, total_failed: count,
total_bytes_uploaded: u64}", a monotonically-incrementing accumulator. -/
structure UploadStats where
  total_uploaded : Nat
  total_failed : Nat
  total_bytes_uploaded : Nat
  deriving Repr, DecidableEq

def UploadStats.new : UploadStats := ⟨0, 0, 0⟩

def UploadStats.incrementUploaded (s : UploadStats) (size : Nat) : UploadStats :=
  ⟨s.total_uploaded + 1, s.total_failed, s.total_bytes_uploaded + size⟩

def UploadStats.incrementFailed (s : UploadStats) : UploadStats :=
  ⟨s.total_uploaded, s.total_failed + 1, s.total_bytes_uploaded⟩

/-- Modelled from the spec: UploadQueue of the missing
src/types/storage.rs, "an ordered sequence of PendingUpload plus two
bounds: a batch trigger size (flush threshold) and a hard capacity
(backpressure ceiling)".  LocalityUploadService::new constructs it as
UploadQueue::new(10, 100). -/
structure UploadQueue where
  queue : List PendingUpload
  batch_size : Nat
  max_size : Nat
  deriving Repr, DecidableEq

def UploadQueue.new (batchSize maxSize : Nat) : UploadQueue :=
  ⟨[], batchSize, maxSize⟩

/-- Modelled from the spec: "add fails (does not enqueue) when at hard
capacity". -/
def UploadQueue.addUpload (q : UploadQueue) (p : PendingUpload) :
    Except Unit UploadQueue :=
  if q.queue.length ≥ q.max_size then .error ()
  else .ok ⟨q.queue ++ [p], q.batch_size, q.max_size⟩

/-- Modelled from the spec: "take_batch atomically removes and returns
all queued items up to the batch trigger size (or all, if fewer)". -/
def UploadQueue.takeBatch (q : UploadQueue) :
    List PendingUpload × UploadQueue :=
  (q.queue.take q.batch_size, ⟨q.queue.drop q.batch_size, q.batch_size, q.max_size⟩)

def UploadQueue.isEmpty (q : UploadQueue) : Bool := q.queue.isEmpty

/-- Modelled from the spec: "after every successful enqueue, if the
queue has reached its batch trigger size, the pipeline immediately
drains" — is_full tests the batch trigger. -/
def UploadQueue.isFull (q : UploadQueue) : Bool := q.queue.length ≥ q.batch_size

/-! ## Filesystem scan model

The scanner (src/services/locality_upload.rs) only queries directory
entries through is_dir/file_name, is_file/file_stem/extension; a
directory tree is modelled by exactly those observations.  The root
localities directory is `Option (List CountryDir)`, `none` meaning the
directory does not exist. -/

/-- One entry of a country directory as observed by the scanner. -/
structure DirEntry where
  is_file : Bool
  file_stem : Option String
  extension : Option String
  deriving Repr, DecidableEq

/-- One entry of the localities root directory as observed by the
scanner. -/
structure CountryDir where
  is_dir : Bool
  name : Option String
  entries : List DirEntry
  deriving Repr, DecidableEq

/-- Whether the file <country>/<stem>.pmtiles exists in the scanned
tree; this is what the file_path.exists() check of upload_single_file
observes for a path produced by the scanner. -/
def fileExists (dirs : List CountryDir) (country stem : String) : Bool :=
  dirs.any fun d =>
    d.name = some country &&
      d.entries.any fun e =>
        e.is_file && e.file_stem = some stem && e.extension = some "pmtiles"

/-- Rust str::parse::<u32>: an optional leading plus sign, then at
least one ASCII digit and nothing else, rejecting values above
u32::MAX. -/
def parseU32 (s : String) : Option Nat :=
  let ds := match s.data with
    | '+' :: rest => rest
    | cs => cs
  if ds.isEmpty then none
  else if ds.all Char.isDigit then
    let v := ds.foldl (fun a c => a * 10 + (c.toNat - 48)) 0
    if v < 2 ^ 32 then some v else none
  else none

/-! ## Publish pipeline (src/services/locality_upload.rs and
src/services/database.rs) -/

/-- Result of whosonfirst_db.get_locality_by_id as consumed by
process_country_directory: found (Ok(Some)), not found (Ok(None),
logged and skipped) or a database error (logged and skipped). -/
inductive LookupResult where
  | found
  | notFound
  | dbError
  deriving Repr, DecidableEq

/-- Error cases of LocalityUploadError reached by the embedded code
paths. -/
inductive PublishErr where
  | invalidCountryName
  | invalidFilename
  | invalidLocalityId
  | databaseError
  | storageError
  | fileNotFound
  deriving Repr, DecidableEq

/-- External collaborators of the publish pipeline: the WhosOnFirst
lookup, the content store (None = the upload fails; Some cid = success
with that content id), file sizes read from disk, and whether a batch
dedup upsert succeeds. -/
structure PublishEnv where
  lookup : Nat → LookupResult
  upload : String → String → Option String
  fileSize : String → String → Nat
  insertOk : List CompletedUpload → Bool

/-- The shared mutable state of LocalityUploadService: the persistent
dedup mapping key set (locality_cids table of src/services/database.rs,
keyed by (country_code, locality_id)), the in-memory upload queue and
the running statistics. -/
structure PipelineState where
  mappings : List (String × Nat)
  queue : UploadQueue
  stats : UploadStats
  deriving Repr, DecidableEq

/-- database.rs has_cid_mapping: a row for (country_code, locality_id)
exists. -/
def hasCidMapping (m : List (String × Nat)) (country : String) (id : Nat) : Bool :=
  (country, id) ∈ m

/-- One INSERT OR REPLACE of batch_insert_cid_mappings: replacing an
existing row keeps the key set, a new key is added. -/
def insertMappingKey (m : List (String × Nat)) (k : String × Nat) :
    List (String × Nat) :=
  if k ∈ m then m else k :: m

/-- Key set after the transactional batch upsert of
batch_insert_cid_mappings (src/services/database.rs, lines 193 to 229). -/
def upsertAll (m : List (String × Nat)) (l : List CompletedUpload) :
    List (String × Nat) :=
  l.foldl (fun acc u => insertMappingKey acc (u.country_code, u.locality_id)) m

/-- Result of one unit of pipeline work: the Rust return value, the
shared state after the unit ran (mutations before an error persist, as
they do behind the Arc<Mutex<...>> fields), and the trace of content
store upload calls (country_code, stem) issued. -/
structure StepOut (α : Type) where
  result : Except PublishErr α
  state : PipelineState
  uploads : List (String × String)
  deriving Repr

/-- Embedding of upload_single_file (src/services/locality_upload.rs,
lines 245 to 283): missing file is an error before the store is called;
otherwise the store is called and either fails or yields a
CompletedUpload carrying the file size. -/
def uploadSingleFile (env : PublishEnv) (dirs : List CountryDir)
    (p : PendingUpload) :
    Except PublishErr CompletedUpload × List (String × String) :=
  if fileExists dirs p.country_code p.stem then
    match env.upload p.country_code p.stem with
    | some cid =>
      (.ok ⟨p.country_code, p.locality_id, cid,
            env.fileSize p.country_code p.stem⟩,
       [(p.country_code, p.stem)])
    | none => (.error .storageError, [(p.country_code, p.stem)])
  else (.error .fileNotFound, [])

/-- The successfully uploaded items of a batch, in order. -/
def batchSuccesses (env : PublishEnv) (dirs : List CountryDir)
    (batch : List PendingUpload) : List CompletedUpload :=
  (batch.map fun p => (uploadSingleFile env dirs p).1).filterMap Except.toOption

/-- The number of failed items of a batch. -/
def batchFailedCount (env : PublishEnv) (dirs : List CountryDir)
    (batch : List PendingUpload) : Nat :=
  ((batch.map fun p => (uploadSingleFile env dirs p).1).filter
    fun r => !r.isOk).length

/-- The upload calls issued while processing a batch. -/
def batchTrace (env : PublishEnv) (dirs : List CountryDir)
    (batch : List PendingUpload) : List (String × String) :=
  (batch.map fun p => (uploadSingleFile env dirs p).2).flatten

/-- The statistics after "for _ in 0..failed_count { increment_failed }". -/
def incrementFailedN (s : UploadStats) : Nat → UploadStats
  | 0 => s
  | n + 1 => (incrementFailedN s n).incrementFailed

/-- Embedding of process_upload_queue (src/services/locality_upload.rs,
lines 187 to 243): take a batch; an empty batch returns immediately;
otherwise every item is uploaded, the successes are written to the
dedup store in one transactional upsert, and only after that upsert
succeeds are the statistics incremented (uploads first, then the
failure count); a failing upsert propagates the database error with the
statistics untouched. -/
def processUploadQueue (env : PublishEnv) (dirs : List CountryDir)
    (st : PipelineState) : StepOut Unit :=
  let taken := st.queue.takeBatch
  let batch := taken.1
  let st1 : PipelineState := ⟨st.mappings, taken.2, st.stats⟩
  if batch.isEmpty then ⟨.ok (), st1, []⟩
  else
    let successes := batchSuccesses env dirs batch
    let failedCount := batchFailedCount env dirs batch
    let trace := batchTrace env dirs batch
    if successes.isEmpty then
      ⟨.ok (), ⟨st1.mappings, st1.queue,
        incrementFailedN st1.stats failedCount⟩, trace⟩
    else if env.insertOk successes then
      let statsUp := successes.foldl
        (fun s u => s.incrementUploaded u.file_size) st1.stats
      ⟨.ok (), ⟨upsertAll st1.mappings successes, st1.queue,
        incrementFailedN statsUp failedCount⟩, trace⟩
    else ⟨.error .databaseError, st1, trace⟩

/-- Embedding of process_file_for_upload
(src/services/locality_upload.rs, lines 155 to 185): skip when a dedup
mapping exists; attempt to enqueue, a full-queue rejection being benign
(Ok(false)); after a successful enqueue, drain a batch when the queue
reached the batch trigger size. -/
def processFileForUpload (env : PublishEnv) (dirs : List CountryDir)
    (st : PipelineState) (country stem : String) (id : Nat) :
    StepOut Bool :=
  if hasCidMapping st.mappings country id then ⟨.ok false, st, []⟩
  else
    match st.queue.addUpload ⟨country, id, stem⟩ with
    | .error _ => ⟨.ok false, st, []⟩
    | .ok q1 =>
      let st1 : PipelineState := ⟨st.mappings, q1, st.stats⟩
      if st1.queue.isFull then
        let out := processUploadQueue env dirs st1
        match out.result with
        | .error e => ⟨.error e, out.state, out.uploads⟩
        | .ok _ => ⟨.ok true, out.state, out.uploads⟩
      else ⟨.ok true, st1, []⟩

/-- Embedding of the file loop of process_country_directory
(src/services/locality_upload.rs, lines 96 to 153) over the remaining
entries, with the running (total_files, processed_files) counters.
Non-files and non-pmtiles entries are skipped; a missing stem or a stem
that does not parse as u32 is an error that aborts the whole scan (the
question-mark operator on lines 117 and 121); a locality missing from
the WhosOnFirst database or a lookup error only skips the file. -/
def processCountryDirectory (env : PublishEnv) (dirs : List CountryDir)
    (country : String) :
    List DirEntry → PipelineState → Nat → Nat → StepOut (Nat × Nat)
  | [], st, total, processed => ⟨.ok (total, processed), st, []⟩
  | e :: rest, st, total, processed =>
    if !(e.is_file && e.extension = some "pmtiles") then
      processCountryDirectory env dirs country rest st total processed
    else
      match e.file_stem with
      | none => ⟨.error .invalidFilename, st, []⟩
      | some stem =>
        match parseU32 stem with
        | none => ⟨.error .invalidLocalityId, st, []⟩
        | some id =>
          match env.lookup id with
          | .found =>
            let out := processFileForUpload env dirs st country stem id
            match out.result with
            | .error er => ⟨.error er, out.state, out.uploads⟩
            | .ok b =>
              let out2 := processCountryDirectory env dirs country rest
                out.state (total + 1) (if b then processed + 1 else processed)
              ⟨out2.result, out2.state, out.uploads ++ out2.uploads⟩
          | .notFound =>
            processCountryDirectory env dirs country rest st (total + 1) processed
          | .dbError =>
            processCountryDirectory env dirs country rest st (total + 1) processed

/-- Embedding of the country loop of process_all_localities
(src/services/locality_upload.rs, lines 58 to 80): non-directories are
skipped, a directory whose name cannot be read is an error, and an
error from a country directory aborts the loop. -/
def processDirs (env : PublishEnv) (dirs : List CountryDir) :
    List CountryDir → PipelineState → StepOut Unit
  | [], st => ⟨.ok (), st, []⟩
  | d :: rest, st =>
    if !d.is_dir then processDirs env dirs rest st
    else
      match d.name with
      | none => ⟨.error .invalidCountryName, st, []⟩
      | some country =>
        let out := processCountryDirectory env dirs country d.entries st 0 0
        match out.result with
        | .error e => ⟨.error e, out.state, out.uploads⟩
        | .ok _ =>
          let out2 := processDirs env dirs rest out.state
          ⟨out2.result, out2.state, out.uploads ++ out2.uploads⟩

/-- Embedding of process_all_localities
(src/services/locality_upload.rs, lines 47 to 94): a missing localities
directory returns Ok immediately; otherwise the country directories are
scanned and a final partial batch, if any, is drained. -/
def processAllLocalities (env : PublishEnv)
    (root : Option (List CountryDir)) (st : PipelineState) : StepOut Unit :=
  match root with
  | none => ⟨.ok (), st, []⟩
  | some dirs =>
    let out := processDirs env dirs dirs st
    match out.result with
    | .error e => ⟨.error e, out.state, out.uploads⟩
    | .ok _ =>
      if !out.state.queue.isEmpty then
        let out2 := processUploadQueue env dirs out.state
        ⟨out2.result, out2.state, out.uploads ++ out2.uploads⟩
      else ⟨.ok (), out.state, out.uploads⟩

/-- One publish run as the runner performs it: a fresh
LocalityUploadService (UploadQueue::new(10, 100), UploadStats::new)
over the persistent dedup mappings, then process_all_localities. -/
def runPublish (env : PublishEnv) (root : Option (List CountryDir))
    (mappings : List (String × Nat)) : StepOut Unit :=
  processAllLocalities env root ⟨mappings, UploadQueue.new 10 100, UploadStats.new⟩

/-! ## Extraction scheduler (src/services/extraction.rs)

Only the control flow matters to the claims, so a locality is its
integer identifier; the fields used to build the bounding-box string do
not influence scheduling.  The environment supplies the Catalog query
result per country, which output files already exist on disk before the
run, and whether an invocation of the external pmtiles tool succeeds
(combining subprocess launch, exit status and the output-file check,
all of which map to the same per-region failure). -/

structure ExtractEnv where
  localities : String → Except Unit (List Nat)
  fileOnDisk : String → Nat → Bool
  toolOk : String → Nat → Bool

/-- Embedding of extract_locality (src/services/extraction.rs, lines 82
to 138): returns whether the task succeeded together with the tool
invocations it performed; an already-existing output file short-circuits
to success without invoking the tool. -/
def extractLocality (env : ExtractEnv) (country : String) (id : Nat) :
    Bool × List Nat :=
  if env.fileOnDisk country id then (true, [])
  else if env.toolOk country id then (true, [id]) else (false, [id])

/-- Observable outcome of the extract_localities loop body for one
country: the aggregate result, the localities for which a task was
spawned, the tool invocations, and the initial and final value of the
shared completed_count progress counter (`none` when the country is
skipped before the counter is created). -/
structure CountryOutcome where
  result : Except Unit Unit
  spawned : List Nat
  toolCalls : List Nat
  counterInit : Option Nat
  counterFinal : Option Nat
  deriving Repr

/-- Embedding of the per-country body of extract_localities
(src/services/extraction.rs, lines 146 to 251): a Catalog query failure
is an error; an empty locality list or zero remaining regions skips the
country; otherwise a task is spawned for every locality (not only the
missing ones), all tasks are joined, each success increments the
counter that starts at the already-existing count, and any failed task
makes the country fail in aggregate. -/
def extractCountryStep (env : ExtractEnv) (country : String) : CountryOutcome :=
  match env.localities country with
  | .error _ => ⟨.error (), [], [], none, none⟩
  | .ok ids =>
    if ids.isEmpty then ⟨.ok (), [], [], none, none⟩
    else
      let existingCount := (ids.filter fun i => env.fileOnDisk country i).length
      if ids.length - existingCount = 0 then ⟨.ok (), [], [], none, none⟩
      else
        let results := ids.map fun i => extractLocality env country i
        let successCount := (results.filter fun r => r.1).length
        let hasErrors := results.any fun r => !r.1
        ⟨if hasErrors then .error () else .ok (),
         ids,
         (results.map fun r => r.2).flatten,
         some existingCount,
         some (existingCount + successCount)⟩

/-- Embedding of extract_localities (src/services/extraction.rs, lines
140 to 255): countries are processed sequentially and the first country
whose body returns an error aborts the whole loop, leaving the
remaining countries unprocessed.  Returns the overall result and the
outcomes of the countries actually processed, in order. -/
def extractLocalities (env : ExtractEnv) :
    List String → Except Unit Unit × List (String × CountryOutcome)
  | [] => (.ok (), [])
  | c :: rest =>
    let o := extractCountryStep env c
    match o.result with
    | .error e => (.error e, [(c, o)])
    | .ok _ =>
      let tail := extractLocalities env rest
      (tail.1, (c, o) :: tail.2)

/-! ## Pipeline runner (src/app/runner.rs) -/

/-- Embedding of the country path of NodeRunner::run (src/app/runner.rs,
lines 60 to 76): extraction runs first and its error, if any, is only
logged; process_all_localities runs afterwards in every case. -/
def runNode (eenv : ExtractEnv) (countries : List String)
    (penv : PublishEnv) (root : Option (List CountryDir))
    (mappings : List (String × Nat)) :
    (Except Unit Unit × List (String × CountryOutcome)) × StepOut Unit :=
  (extractLocalities eenv countries, runPublish penv root mappings)

/-! ## Helper lemmas: downloader -/

/-- The streaming phase returns Ok only when the completion check
passed: either the expected total is unknown (zero) or at least that
many bytes were accounted for. -/
theorem streamAndVerify_ok_check (temp rr : Option Nat) (sb ts : Nat)
    (r : HttpResponse) :
    (streamAndVerify temp rr sb ts r).ok = true →
    (streamAndVerify temp rr sb ts r).total = 0 ∨
      (streamAndVerify temp rr sb ts r).total ≤
        (streamAndVerify temp rr sb ts r).downloaded := by
  unfold streamAndVerify
  dsimp only
  split_ifs <;> intro hok <;>
    simp only [gt_iff_lt, Bool.and_eq_true, decide_eq_true_eq, not_and,
      not_lt] at * <;> omega

/-- An attempt that returns Ok passed the completion check: either the
expected total was unknown (zero) or at least that many bytes were
accounted for. -/
theorem downloadAttempt_ok_check (t : Option Nat) (r : HttpResponse) :
    (downloadAttempt t r).ok = true →
    (downloadAttempt t r).total = 0 ∨
      (downloadAttempt t r).total ≤ (downloadAttempt t r).downloaded := by
  unfold downloadAttempt
  dsimp only
  split
  · simp
  · exact streamAndVerify_ok_check _ _ _ _ _

/-- Through the whole retry loop the destination is written only by the
final rename: a failing run leaves it untouched, and a succeeding run
sets it to the temp file of the attempt that returned Ok. -/
theorem downloadGo_dest (env : Nat → HttpResponse) :
    ∀ (fuel attempt : Nat) (st : DlState),
      ((downloadGo env attempt fuel st).2 = false →
        (downloadGo env attempt fuel st).1.dest = st.dest) ∧
      ((downloadGo env attempt fuel st).2 = true →
        ∃ a t, (downloadAttempt t (env a)).ok = true ∧
          (downloadGo env attempt fuel st).1.dest =
            (downloadAttempt t (env a)).temp) := by
  intro fuel
  induction fuel with
  | zero =>
    intro attempt st
    exact ⟨fun _ => rfl, fun h => Bool.noConfusion h⟩
  | succ n ih =>
    intro attempt st
    have hstep : downloadGo env attempt (n + 1) st =
        (if (downloadAttempt st.temp (env attempt)).ok then
           (⟨none, (downloadAttempt st.temp (env attempt)).temp⟩, true)
         else if attempt < MAX_RETRIES then
           downloadGo env (attempt + 1) n
             ⟨(downloadAttempt st.temp (env attempt)).temp, st.dest⟩
         else (⟨none, st.dest⟩, false)) := rfl
    constructor
    · intro h
      rw [hstep] at h ⊢
      by_cases hok : (downloadAttempt st.temp (env attempt)).ok = true
      · rw [if_pos hok] at h
        exact absurd h (by simp)
      · by_cases hlt : attempt < MAX_RETRIES
        · rw [if_neg hok, if_pos hlt] at h ⊢
          exact (ih (attempt + 1)
            ⟨(downloadAttempt st.temp (env attempt)).temp, st.dest⟩).1 h
        · rw [if_neg hok, if_neg hlt]
    · intro h
      rw [hstep] at h ⊢
      by_cases hok : (downloadAttempt st.temp (env attempt)).ok = true
      · rw [if_pos hok]
        exact ⟨attempt, st.temp, hok, rfl⟩
      · by_cases hlt : attempt < MAX_RETRIES
        · rw [if_neg hok, if_pos hlt] at h ⊢
          exact (ih (attempt + 1)
            ⟨(downloadAttempt st.temp (env attempt)).temp, st.dest⟩).2 h
        · rw [if_neg hok, if_neg hlt] at h
          exact absurd h (by simp)

/-! ## Theorems -/

/-- C10: when the localities output directory does not exist,
process_all_localities returns Ok immediately: no scan is performed, no
upload call is issued, and the whole pipeline state (including
UploadStats) is left unchanged; the publish run succeeds vacuously. -/
theorem processAllLocalities_missing_dir_vacuous_ok
    (env : PublishEnv) (st : PipelineState) :
    processAllLocalities env none st = ⟨.ok (), st, []⟩ := rfl

/-- C8: the UploadQueue bound len(queue) <= hard_capacity is preserved
by add (in both outcomes) and by take_batch; add on a queue at hard
capacity fails with an error (and, the model being functional, enqueues
nothing); take_batch removes and returns the first batch_size items (or
all, if fewer); and process_upload_queue on an empty queue returns Ok
with an empty upload trace and UploadStats unchanged. -/
theorem uploadQueue_bounds_and_empty_batch
    (q : UploadQueue) (p : PendingUpload) (env : PublishEnv)
    (dirs : List CountryDir) (st : PipelineState) :
    (∀ q1, q.addUpload p = .ok q1 → q1.queue.length ≤ q1.max_size) ∧
    (q.queue.length ≤ q.max_size →
      (q.takeBatch).2.queue.length ≤ (q.takeBatch).2.max_size) ∧
    (q.queue.length = q.max_size → q.addUpload p = .error ()) ∧
    (q.takeBatch).1 = q.queue.take q.batch_size ∧
    (q.takeBatch).2.queue = q.queue.drop q.batch_size ∧
    (st.queue.queue = [] →
      (processUploadQueue env dirs st).result = .ok () ∧
      (processUploadQueue env dirs st).state.stats = st.stats ∧
      (processUploadQueue env dirs st).uploads = []) := by
  refine ⟨?_, ?_, ?_, rfl, rfl, ?_⟩
  · intro q1 h
    unfold UploadQueue.addUpload at h
    split at h
    · exact absurd h (by simp)
    · rename_i hlt
      cases h
      simpa [Nat.succ_le_iff] using Nat.lt_of_not_le (fun hc => hlt hc)
  · intro h
    unfold UploadQueue.takeBatch
    simp only [List.length_drop]
    exact le_trans (Nat.sub_le _ _) h
  · intro h
    unfold UploadQueue.addUpload
    simp [h]
  · intro h
    unfold processUploadQueue UploadQueue.takeBatch
    simp [h]

/-- C8 witness: a queue of one item with hard capacity one rejects a
further add, and process_upload_queue over an empty queue leaves the
fresh statistics untouched. -/
theorem uploadQueue_bounds_and_empty_batch_witness :
    (UploadQueue.mk [⟨"aa", 1, "1"⟩] 10 1).addUpload ⟨"aa", 2, "2"⟩ =
      .error () ∧
    (processUploadQueue
        ⟨fun _ => .found, fun _ _ => some "cid", fun _ _ => 0, fun _ => true⟩
        []
        ⟨[], UploadQueue.new 10 100, UploadStats.new⟩).state.stats =
      UploadStats.new := by
  have h := uploadQueue_bounds_and_empty_batch
    (UploadQueue.mk [⟨"aa", 1, "1"⟩] 10 1) ⟨"aa", 2, "2"⟩
    ⟨fun _ => .found, fun _ _ => some "cid", fun _ _ => 0, fun _ => true⟩
    []
    ⟨[], UploadQueue.new 10 100, UploadStats.new⟩
  exact ⟨h.2.2.1 (by decide), (h.2.2.2.2.2 rfl).2.1⟩

/-- C1: batch commit atomicity.  If every upload of the non-empty
success set went through but the transactional dedup upsert fails,
process_upload_queue propagates the database error and
UploadStats.total_uploaded is unchanged for every item of the batch;
statistics are incremented only after the upsert returns success. -/
theorem batch_insert_failure_keeps_stats
    (env : PublishEnv) (dirs : List CountryDir) (st : PipelineState)
    (h1 : batchSuccesses env dirs (st.queue.takeBatch).1 ≠ [])
    (h2 : env.insertOk (batchSuccesses env dirs (st.queue.takeBatch).1) = false) :
    (processUploadQueue env dirs st).result = .error .databaseError ∧
    (processUploadQueue env dirs st).state.stats.total_uploaded =
      st.stats.total_uploaded := by
  have hbatch : ¬ (st.queue.takeBatch).1.isEmpty := by
    intro h
    rw [List.isEmpty_iff] at h
    exact h1 (by simp [batchSuccesses, h])
  unfold processUploadQueue
  rw [if_neg hbatch, if_neg (by simpa [List.isEmpty_iff] using h1), if_neg (by simp [h2])]
  exact ⟨rfl, rfl⟩

/-- C1 witness: one pending upload whose file exists and whose store
upload succeeds, with a dedup upsert that fails: the batch errors out
and total_uploaded stays zero. -/
theorem batch_insert_failure_keeps_stats_witness :
    (processUploadQueue
        ⟨fun _ => .found, fun _ _ => some "cid", fun _ _ => 3, fun _ => false⟩
        [⟨true, some "aa", [⟨true, some "7", some "pmtiles"⟩]⟩]
        ⟨[], ⟨[⟨"aa", 7, "7"⟩], 10, 100⟩, UploadStats.new⟩).result =
      .error .databaseError ∧
    (processUploadQueue
        ⟨fun _ => .found, fun _ _ => some "cid", fun _ _ => 3, fun _ => false⟩
        [⟨true, some "aa", [⟨true, some "7", some "pmtiles"⟩]⟩]
        ⟨[], ⟨[⟨"aa", 7, "7"⟩], 10, 100⟩, UploadStats.new⟩).state.stats.total_uploaded = 0 := by
  have h := batch_insert_failure_keeps_stats
    ⟨fun _ => .found, fun _ _ => some "cid", fun _ _ => 3, fun _ => false⟩
    [⟨true, some "aa", [⟨true, some "7", some "pmtiles"⟩]⟩]
    ⟨[], ⟨[⟨"aa", 7, "7"⟩], 10, 100⟩, UploadStats.new⟩
    (by decide) (by decide)
  exact ⟨h.1, h.2.trans rfl⟩

/-- C6 counterexample: the downloader renames the temp file onto the
destination even though the byte count does not equal the expected
total.  Resuming a 5-byte temp file, the server replies 206 with an
advertised total of 10 in the content-range header but streams 20 more
bytes; the completion check (which only rejects short transfers) passes,
the attempt returns Ok, the 25-byte temp file is renamed onto the
destination, and 25 is not the advertised total 10. -/
theorem download_renames_without_exact_total :
    (downloadAttempt (some 5) ⟨206, some 10, none, [20], false⟩).ok = true ∧
    (downloadAttempt (some 5) ⟨206, some 10, none, [20], false⟩).total = 10 ∧
    (downloadAttempt (some 5) ⟨206, some 10, none, [20], false⟩).downloaded = 25 ∧
    downloadFileWithProgress (fun _ => ⟨206, some 10, none, [20], false⟩)
      ⟨some 5, none⟩ = (⟨none, some 25⟩, true) ∧
    (25 : Nat) ≠ 10 := by decide

/-- C6 amended: download_file_with_progress writes only to the
temporary file and renames it onto the destination only after an
attempt completes with the byte count verified to be at least the
expected total when that total is nonzero (a short transfer is a
failure; an over-long transfer or an unknown total passes); at no point
during or after a failed or partial attempt is a partially-downloaded
file visible at the destination path (a failing run leaves the
destination exactly as it was). -/
theorem download_temp_file_protocol (env : Nat → HttpResponse) (st : DlState) :
    (∀ t r, 0 < (downloadAttempt t r).total →
      (downloadAttempt t r).downloaded < (downloadAttempt t r).total →
      (downloadAttempt t r).ok = false) ∧
    ((downloadFileWithProgress env st).2 = false →
      (downloadFileWithProgress env st).1.dest = st.dest) ∧
    ((downloadFileWithProgress env st).2 = true →
      ∃ a t, (downloadAttempt t (env a)).ok = true ∧
        (downloadFileWithProgress env st).1.dest =
          (downloadAttempt t (env a)).temp ∧
        ((downloadAttempt t (env a)).total = 0 ∨
          (downloadAttempt t (env a)).total ≤
            (downloadAttempt t (env a)).downloaded)) := by
  refine ⟨?_, ?_, ?_⟩
  · intro t r h1 h2
    cases hok : (downloadAttempt t r).ok
    · rfl
    · rcases downloadAttempt_ok_check t r hok with h0 | hle
      · omega
      · omega
  · exact (downloadGo_dest env MAX_RETRIES 1 st).1
  · intro h
    rcases (downloadGo_dest env MAX_RETRIES 1 st).2 h with ⟨a, t, hok, hdest⟩
    exact ⟨a, t, hok, hdest, downloadAttempt_ok_check t (env a) hok⟩

/-- C6 amended witness: a 404 on every attempt leaves a pre-existing
destination untouched; a short transfer (4 of 10 advertised bytes)
fails; a clean 3-byte download succeeds and renames a verified temp
file. -/
theorem download_temp_file_protocol_witness :
    (downloadAttempt none ⟨200, none, some 10, [4], false⟩).ok = false ∧
    (downloadFileWithProgress (fun _ => ⟨404, none, none, [], false⟩)
      ⟨none, some 9⟩).1.dest = some 9 ∧
    (∃ a t,
      (downloadAttempt t ((fun _ => ⟨200, none, some 3, [3], false⟩ :
          Nat → HttpResponse) a)).ok = true ∧
      (downloadFileWithProgress (fun _ => ⟨200, none, some 3, [3], false⟩)
        ⟨none, none⟩).1.dest =
        (downloadAttempt t ((fun _ => ⟨200, none, some 3, [3], false⟩ :
          Nat → HttpResponse) a)).temp ∧
      ((downloadAttempt t ((fun _ => ⟨200, none, some 3, [3], false⟩ :
          Nat → HttpResponse) a)).total = 0 ∨
        (downloadAttempt t ((fun _ => ⟨200, none, some 3, [3], false⟩ :
          Nat → HttpResponse) a)).total ≤
          (downloadAttempt t ((fun _ => ⟨200, none, some 3, [3], false⟩ :
          Nat → HttpResponse) a)).downloaded)) := by
  refine ⟨?_, ?_, ?_⟩
  · exact (download_temp_file_protocol (fun _ => ⟨404, none, none, [], false⟩)
      ⟨none, some 9⟩).1 none ⟨200, none, some 10, [4], false⟩
      (by decide) (by decide)
  · exact (download_temp_file_protocol (fun _ => ⟨404, none, none, [], false⟩)
      ⟨none, some 9⟩).2.1 (by decide)
  · exact (download_temp_file_protocol (fun _ => ⟨200, none, some 3, [3], false⟩)
      ⟨none, none⟩).2.2 (by decide)

theorem streamAndVerify_rangeRequest (temp rr : Option Nat)
    (sb ts : Nat) (r : HttpResponse) :
    (streamAndVerify temp rr sb ts r).rangeRequest = rr := by
  unfold streamAndVerify
  dsimp only
  split_ifs <;> rfl

/-- C7: resume behavior of download_attempt.  With a temp file of size
S > 0 every attempt sends a Range header for bytes S-; if the server
honors the range (206 with total T in content-range) and streams the
missing T - S bytes, the attempt appends from byte S, succeeds, and the
temp file (renamed onto the destination by the retry loop) has exactly
the advertised total size T; if the server ignores the range (a 2xx
full-content response of length T, fully streamed), the attempt
restarts from byte 0, recreating the temp file, and still produces a
file of exactly T bytes. -/
theorem download_resume_behavior (S : Nat) (r : HttpResponse) :
    (0 < S → (downloadAttempt (some S) r).rangeRequest = some S) ∧
    (∀ T, 0 < S → r.status = 206 → r.contentRangeTotal = some T →
      S ≤ T → r.chunks.sum = T - S → r.streamError = false →
      (downloadAttempt (some S) r).ok = true ∧
      (downloadAttempt (some S) r).temp = some T ∧
      ∀ d, downloadFileWithProgress (fun _ => r) ⟨some S, d⟩ =
        (⟨none, some T⟩, true)) ∧
    (∀ T, 0 < S → isSuccessStatus r.status = true → r.status ≠ 206 →
      r.contentLength = some T → r.chunks.sum = T → r.streamError = false →
      (downloadAttempt (some S) r).ok = true ∧
      (downloadAttempt (some S) r).temp = some T ∧
      ∀ d, downloadFileWithProgress (fun _ => r) ⟨some S, d⟩ =
        (⟨none, some T⟩, true)) := by
  have hS0 : ∀ (h : 0 < S), ((some S).getD 0 > 0) := by
    intro h; simpa using h
  refine ⟨?_, ?_, ?_⟩
  · intro hS
    unfold downloadAttempt
    dsimp only
    split
    · simp [hS]
    · rw [streamAndVerify_rangeRequest]
      simp [hS]
  · intro T hS h206 hcr hST hsum hse
    have hattempt : downloadAttempt (some S) r =
        streamAndVerify (some S) (some S) S T r := by
      unfold downloadAttempt
      dsimp only
      rw [if_pos (hS0 hS), if_pos h206, hcr, if_pos (hS0 hS)]
      rfl
    have hsv : streamAndVerify (some S) (some S) S T r =
        ⟨true, some T, some S, T, T⟩ := by
      unfold streamAndVerify
      dsimp only
      simp only [Option.getD_some]
      rw [hse, hsum, Nat.add_sub_cancel' hST]
      rw [if_neg (show ¬(false = true) by simp)]
      rw [if_neg (show ¬((decide (T > 0) && decide (T < T)) = true) by simp)]
      rw [if_pos hS, Nat.add_sub_cancel' hST]
    refine ⟨by rw [hattempt, hsv], by rw [hattempt, hsv], ?_⟩
    intro d
    have hstep : downloadFileWithProgress (fun _ => r) ⟨some S, d⟩ =
        (if (downloadAttempt (some S) r).ok then
           (⟨none, (downloadAttempt (some S) r).temp⟩, true)
         else if 1 < MAX_RETRIES then
           downloadGo (fun _ => r) 2 4 ⟨(downloadAttempt (some S) r).temp, d⟩
         else (⟨none, d⟩, false)) := rfl
    rw [hstep, hattempt, hsv]
    rfl
  · intro T hS hsucc hne hcl hsum hse
    have hattempt : downloadAttempt (some S) r =
        streamAndVerify (some S) (some S) 0 T r := by
      unfold downloadAttempt
      dsimp only
      rw [if_pos (hS0 hS), if_neg hne, if_pos hsucc, hcl, if_pos (hS0 hS)]
      rfl
    have hsv : streamAndVerify (some S) (some S) 0 T r =
        ⟨true, some T, some S, T, T⟩ := by
      unfold streamAndVerify
      dsimp only
      simp only [Option.getD_some]
      rw [hse, hsum]
      rw [if_neg (show ¬(false = true) by simp)]
      rw [if_neg (show ¬((decide (T > 0) && decide (0 + T < T)) = true) by simp)]
      rw [if_neg (show ¬((0 : Nat) > 0) by simp)]
      simp
    refine ⟨by rw [hattempt, hsv], by rw [hattempt, hsv], ?_⟩
    intro d
    have hstep : downloadFileWithProgress (fun _ => r) ⟨some S, d⟩ =
        (if (downloadAttempt (some S) r).ok then
           (⟨none, (downloadAttempt (some S) r).temp⟩, true)
         else if 1 < MAX_RETRIES then
           downloadGo (fun _ => r) 2 4 ⟨(downloadAttempt (some S) r).temp, d⟩
         else (⟨none, d⟩, false)) := rfl
    rw [hstep, hattempt, hsv]
    rfl

/-- C7 witness: resuming a 5-byte temp file against a range-honoring
server advertising 12 bytes yields a 12-byte file, and against a server
ignoring the range but serving all 12 bytes also yields a 12-byte
file. -/
theorem download_resume_behavior_witness :
    (downloadAttempt (some 5) ⟨206, some 12, none, [7], false⟩).rangeRequest =
      some 5 ∧
    downloadFileWithProgress (fun _ => ⟨206, some 12, none, [7], false⟩)
      ⟨some 5, none⟩ = (⟨none, some 12⟩, true) ∧
    downloadFileWithProgress (fun _ => ⟨200, none, some 12, [12], false⟩)
      ⟨some 5, none⟩ = (⟨none, some 12⟩, true) := by
  refine ⟨?_, ?_, ?_⟩
  · exact (download_resume_behavior 5 ⟨206, some 12, none, [7], false⟩).1
      (by decide)
  · exact ((download_resume_behavior 5 ⟨206, some 12, none, [7], false⟩).2.1 12
      (by decide) (by decide) (by decide) (by decide) (by decide)
      (by decide)).2.2 none
  · exact ((download_resume_behavior 5 ⟨200, none, some 12, [12], false⟩).2.2 12
      (by decide) (by decide) (by decide) (by decide) (by decide)
      (by decide)).2.2 none

/-! ## Helper lemmas: extraction -/

/-- Characterization of the per-country extraction body once the
Catalog query succeeded with a non-empty list that is not fully
extracted yet. -/
theorem extractCountryStep_eq (env : ExtractEnv) (c : String)
    (ids : List Nat) (h1 : env.localities c = .ok ids) (h2 : ids ≠ [])
    (h3 : (ids.filter fun i => env.fileOnDisk c i).length < ids.length) :
    extractCountryStep env c =
      ⟨if (ids.map fun i => extractLocality env c i).any (fun r => !r.1)
          then .error () else .ok (),
       ids,
       ((ids.map fun i => extractLocality env c i).map fun r => r.2).flatten,
       some (ids.filter fun i => env.fileOnDisk c i).length,
       some ((ids.filter fun i => env.fileOnDisk c i).length +
         ((ids.map fun i => extractLocality env c i).filter
           fun r => r.1).length)⟩ := by
  unfold extractCountryStep
  rw [h1]
  dsimp only
  rw [if_neg (by simpa [List.isEmpty_iff] using h2), if_neg (by omega)]

/-- The concatenated tool-invocation traces of all tasks of a country
are exactly the regions whose output file is missing: every missing
sibling is invoked (no cancellation) and no pre-existing region is. -/
theorem toolCalls_eq_missing (env : ExtractEnv) (c : String) :
    ∀ ids : List Nat,
      ((ids.map fun i => extractLocality env c i).map fun r => r.2).flatten =
        ids.filter fun i => !env.fileOnDisk c i := by
  intro ids
  rw [List.map_map]
  induction ids with
  | nil => rfl
  | cons i tl ih =>
    rw [List.map_cons, List.flatten_cons]
    cases hd : env.fileOnDisk c i with
    | true =>
      rw [show ((fun r => r.2) ∘ fun j => extractLocality env c j) i =
          ([] : List Nat) from by simp [extractLocality, hd],
        List.nil_append, ih]
      simp [List.filter_cons, hd]
    | false =>
      rw [show ((fun r => r.2) ∘ fun j => extractLocality env c j) i = [i]
          from by cases ht : env.toolOk c i <;> simp [extractLocality, hd, ht],
        List.singleton_append, ih]
      simp [List.filter_cons, hd]

/-- When every task succeeds (pre-existing regions trivially, missing
ones through the tool), the success count equals the number of
localities. -/
theorem successCount_eq_length (env : ExtractEnv) (c : String) :
    ∀ ids : List Nat,
      (∀ i ∈ ids, env.fileOnDisk c i = false → env.toolOk c i = true) →
      ((ids.map fun i => extractLocality env c i).filter
        fun r => r.1).length = ids.length := by
  intro ids
  induction ids with
  | nil => intro _; rfl
  | cons i tl ih =>
    intro h
    have htl : ∀ j ∈ tl, env.fileOnDisk c j = false → env.toolOk c j = true :=
      fun j hj => h j (List.mem_cons_of_mem i hj)
    rw [List.map_cons]
    cases hd : env.fileOnDisk c i with
    | true =>
      rw [show extractLocality env c i = (true, []) from by
          simp [extractLocality, hd],
        List.filter_cons]
      simp [ih htl]
    | false =>
      have hi : env.toolOk c i = true := h i (List.mem_cons_self i tl) hd
      rw [show extractLocality env c i = (true, [i]) from by
          simp [extractLocality, hd, hi],
        List.filter_cons]
      simp [ih htl]

/-! ## Extraction claim theorems -/

/-- C4 counterexample: a Catalog query failure for one country aborts
the extraction of the remaining countries of the run, not only that
country.  Country "aa" fails its Catalog query; country "bb" has one
locality needing extraction with a working tool, yet extract_localities
stops after "aa" and "bb" is never processed. -/
theorem catalog_failure_aborts_remaining_countries :
    (extractLocalities
      ⟨fun c => if c = "aa" then .error () else .ok [1],
       fun _ _ => false, fun _ _ => true⟩ ["aa", "bb"]).1 = .error () ∧
    (extractLocalities
      ⟨fun c => if c = "aa" then .error () else .ok [1],
       fun _ _ => false, fun _ _ => true⟩ ["aa", "bb"]).2.map Prod.fst =
      ["aa"] ∧
    (extractCountryStep
      ⟨fun c => if c = "aa" then .error () else .ok [1],
       fun _ _ => false, fun _ _ => true⟩ "bb").toolCalls = [1] := by
  refine ⟨rfl, by decide, by decide⟩

/-- C4 amended: per-region failures never cancel sibling tasks of the
same country (all tasks are joined, and the tool is invoked for every
missing region whatever the other results are); if any region of a
country failed, the country is reported as failed in aggregate; the
runner treats the aggregate extraction error as non-fatal and proceeds
to publish; but a failure of one country (a Catalog query failure or an
aggregate extraction failure) aborts the extraction of the remaining
countries of the run rather than only that country. -/
theorem extraction_partial_failure_semantics (env : ExtractEnv)
    (c : String) (ids : List Nat) (rest countries : List String)
    (penv : PublishEnv) (root : Option (List CountryDir))
    (m : List (String × Nat)) :
    (env.localities c = .ok ids → ids ≠ [] →
      (ids.filter fun i => env.fileOnDisk c i).length < ids.length →
      (extractCountryStep env c).spawned = ids ∧
      (extractCountryStep env c).toolCalls =
        (ids.filter fun i => !env.fileOnDisk c i)) ∧
    (env.localities c = .ok ids → ids ≠ [] →
      (ids.filter fun i => env.fileOnDisk c i).length < ids.length →
      (∃ i ∈ ids, env.fileOnDisk c i = false ∧ env.toolOk c i = false) →
      (extractCountryStep env c).result = .error ()) ∧
    ((extractCountryStep env c).result = .error () →
      extractLocalities env (c :: rest) =
        (.error (), [(c, extractCountryStep env c)])) ∧
    (runNode env countries penv root m).2 = runPublish penv root m := by
  refine ⟨?_, ?_, ?_, rfl⟩
  · intro h1 h2 h3
    rw [extractCountryStep_eq env c ids h1 h2 h3]
    exact ⟨rfl, toolCalls_eq_missing env c ids⟩
  · intro h1 h2 h3 hfail
    rw [extractCountryStep_eq env c ids h1 h2 h3]
    rcases hfail with ⟨i, hmem, hdisk, htool⟩
    have hany : ((ids.map fun i => extractLocality env c i).any
        fun r => !r.1) = true := by
      rw [List.any_eq_true]
      exact ⟨extractLocality env c i, List.mem_map_of_mem _ hmem,
        by simp [extractLocality, hdisk, htool]⟩
    simp only [hany, if_true]
  · intro herr
    have hshape : extractLocalities env (c :: rest) =
        (match (extractCountryStep env c).result with
         | .error e => (.error e, [(c, extractCountryStep env c)])
         | .ok _ => ((extractLocalities env rest).1,
             (c, extractCountryStep env c) :: (extractLocalities env rest).2)) :=
      rfl
    rw [hshape, herr]

/-- C4 amended witness: country "aa" has regions 1 (file already on
disk) and 2 (missing, tool fails): task 2's tool is still invoked,
"aa" fails in aggregate, the countries after "aa" are not extracted,
and the runner still publishes. -/
theorem extraction_partial_failure_semantics_witness :
    (extractCountryStep
      ⟨fun _ => .ok [1, 2], fun _ i => decide (i = 1), fun _ _ => false⟩
      "aa").toolCalls = [2] ∧
    (extractCountryStep
      ⟨fun _ => .ok [1, 2], fun _ i => decide (i = 1), fun _ _ => false⟩
      "aa").result = .error () ∧
    extractLocalities
      ⟨fun _ => .ok [1, 2], fun _ i => decide (i = 1), fun _ _ => false⟩
      ["aa", "bb"] =
      (.error (), [("aa", extractCountryStep
        ⟨fun _ => .ok [1, 2], fun _ i => decide (i = 1), fun _ _ => false⟩
        "aa")]) := by
  have h := extraction_partial_failure_semantics
    ⟨fun _ => .ok [1, 2], fun _ i => decide (i = 1), fun _ _ => false⟩
    "aa" [1, 2] ["bb"] []
    ⟨fun _ => .found, fun _ _ => none, fun _ _ => 0, fun _ => true⟩ none []
  have herr := h.2.1 rfl (by decide) (by decide)
    ⟨2, by decide, by decide, by decide⟩
  exact ⟨by rw [(h.1 rfl (by decide) (by decide)).2]; decide, herr,
    h.2.2.1 herr⟩

/-- C5 counterexample: a region whose output file already exists is not
excluded from scheduling: country "aa" has regions 1 (file on disk) and
2 (missing), and a task is spawned for region 1 as well (spawned =
[1, 2]), the skip happening only inside the task. -/
theorem preexisting_region_still_scheduled :
    (extractCountryStep
      ⟨fun _ => .ok [1, 2], fun _ i => decide (i = 1), fun _ _ => true⟩
      "aa").spawned = [1, 2] ∧
    (ExtractEnv.fileOnDisk
      ⟨fun _ => .ok [1, 2], fun _ i => decide (i = 1), fun _ _ => true⟩
      "aa" 1) = true := by
  constructor
  · rw [extractCountryStep_eq _ "aa" [1, 2] rfl (by decide) (by decide)]
  · decide

/-- C5 amended: for every region whose output file already exists
before the run, extract_localities does not invoke the external
extraction tool (the tool-call trace is exactly the missing regions),
and the shared progress counter is initialized to the count of
already-existing regions before any worker runs; however such regions
are not excluded from scheduling — a task is spawned for every locality
of the country, and the pre-existing ones merely return early inside
the task. -/
theorem extraction_skip_and_preseed (env : ExtractEnv) (c : String)
    (ids : List Nat) (h1 : env.localities c = .ok ids) (h2 : ids ≠ [])
    (h3 : (ids.filter fun i => env.fileOnDisk c i).length < ids.length) :
    (extractCountryStep env c).counterInit =
      some (ids.filter fun i => env.fileOnDisk c i).length ∧
    (extractCountryStep env c).toolCalls =
      (ids.filter fun i => !env.fileOnDisk c i) ∧
    (extractCountryStep env c).spawned = ids ∧
    ∀ i ∈ ids, env.fileOnDisk c i = true →
      i ∉ (extractCountryStep env c).toolCalls := by
  rw [extractCountryStep_eq env c ids h1 h2 h3]
  refine ⟨rfl, toolCalls_eq_missing env c ids, rfl, ?_⟩
  intro i hmem hdisk hin
  rw [toolCalls_eq_missing env c ids] at hin
  have := List.of_mem_filter hin
  simp [hdisk] at this

/-- C5 amended witness: with region 1 pre-existing and region 2
missing, the counter starts at 1, only region 2's tool runs, both
regions are scheduled, and region 1 is absent from the tool calls. -/
theorem extraction_skip_and_preseed_witness :
    (extractCountryStep
      ⟨fun _ => .ok [1, 2], fun _ i => decide (i = 1), fun _ _ => true⟩
      "aa").counterInit = some 1 ∧
    (extractCountryStep
      ⟨fun _ => .ok [1, 2], fun _ i => decide (i = 1), fun _ _ => true⟩
      "aa").toolCalls = [2] ∧
    (1 : Nat) ∉ (extractCountryStep
      ⟨fun _ => .ok [1, 2], fun _ i => decide (i = 1), fun _ _ => true⟩
      "aa").toolCalls := by
  have h := extraction_skip_and_preseed
    ⟨fun _ => .ok [1, 2], fun _ i => decide (i = 1), fun _ _ => true⟩
    "aa" [1, 2] rfl (by decide) (by decide)
  exact ⟨by rw [h.1]; rfl, by rw [h.2.1]; rfl,
    h.2.2.2 1 (by decide) (by decide)⟩

/-- C9: the progress counter double-counts pre-existing regions.  For a
country whose Catalog query yields ids with e of them already on disk
and at least one missing, the counter is initialized to e, a task is
spawned for every one of the n = ids.length localities, and when every
task succeeds the counter finishes at e + n, which exceeds the total n
whenever e > 0. -/
theorem progress_counter_double_counts (env : ExtractEnv) (c : String)
    (ids : List Nat) (h1 : env.localities c = .ok ids) (h2 : ids ≠ [])
    (h3 : (ids.filter fun i => env.fileOnDisk c i).length < ids.length)
    (h4 : ∀ i ∈ ids, env.fileOnDisk c i = false → env.toolOk c i = true) :
    (extractCountryStep env c).counterInit =
      some (ids.filter fun i => env.fileOnDisk c i).length ∧
    (extractCountryStep env c).spawned = ids ∧
    (extractCountryStep env c).counterFinal =
      some ((ids.filter fun i => env.fileOnDisk c i).length + ids.length) ∧
    (0 < (ids.filter fun i => env.fileOnDisk c i).length →
      ids.length <
        (ids.filter fun i => env.fileOnDisk c i).length + ids.length) := by
  rw [extractCountryStep_eq env c ids h1 h2 h3]
  refine ⟨rfl, rfl, ?_, fun h => by omega⟩
  rw [successCount_eq_length env c ids h4]

/-- C9 witness: with regions 1 (pre-existing) and 2 (missing, tool
succeeds), the counter starts at 1 and finishes at 3, exceeding the
total of 2 regions. -/
theorem progress_counter_double_counts_witness :
    (extractCountryStep
      ⟨fun _ => .ok [1, 2], fun _ i => decide (i = 1), fun _ _ => true⟩
      "aa").counterInit = some 1 ∧
    (extractCountryStep
      ⟨fun _ => .ok [1, 2], fun _ i => decide (i = 1), fun _ _ => true⟩
      "aa").counterFinal = some 3 ∧
    (2 : Nat) < 3 := by
  have h := progress_counter_double_counts
    ⟨fun _ => .ok [1, 2], fun _ i => decide (i = 1), fun _ _ => true⟩
    "aa" [1, 2] rfl (by decide) (by decide) (by decide)
  exact ⟨by rw [h.1]; rfl, by rw [h.2.2.1]; rfl, by decide⟩

/-! ## Helper lemmas: publish pipeline error propagation -/

/-- Shape of process_all_localities over an existing directory: the
country loop runs, then the final partial batch is drained when the
queue is non-empty. -/
theorem processAllLocalities_some (env : PublishEnv) (dirs : List CountryDir)
    (st : PipelineState) :
    processAllLocalities env (some dirs) st =
      (match (processDirs env dirs dirs st).result with
       | .error e => ⟨.error e, (processDirs env dirs dirs st).state,
           (processDirs env dirs dirs st).uploads⟩
       | .ok _ =>
         if !(processDirs env dirs dirs st).state.queue.isEmpty then
           ⟨(processUploadQueue env dirs
               (processDirs env dirs dirs st).state).result,
            (processUploadQueue env dirs
               (processDirs env dirs dirs st).state).state,
            (processDirs env dirs dirs st).uploads ++
              (processUploadQueue env dirs
                (processDirs env dirs dirs st).state).uploads⟩
         else ⟨.ok (), (processDirs env dirs dirs st).state,
             (processDirs env dirs dirs st).uploads⟩) := rfl

/-- An error from the country loop propagates out of
process_all_localities unchanged, skipping the final drain. -/
theorem processAllLocalities_of_dirs_error (env : PublishEnv)
    (dirs : List CountryDir) (st : PipelineState) (e : PublishErr)
    (st' : PipelineState) (tr : List (String × String))
    (h : processDirs env dirs dirs st = ⟨.error e, st', tr⟩) :
    processAllLocalities env (some dirs) st = ⟨.error e, st', tr⟩ := by
  rw [processAllLocalities_some, h]

/-- A country directory whose scan errors makes the country loop stop
with that error. -/
theorem processDirs_cons_error (env : PublishEnv) (dirs : List CountryDir)
    (d : CountryDir) (rest : List CountryDir) (st : PipelineState)
    (country : String) (e : PublishErr) (st' : PipelineState)
    (tr : List (String × String)) (hdir : d.is_dir = true)
    (hname : d.name = some country)
    (hcd : processCountryDirectory env dirs country d.entries st 0 0 =
      ⟨.error e, st', tr⟩) :
    processDirs env dirs (d :: rest) st = ⟨.error e, st', tr⟩ := by
  unfold processDirs
  rw [if_neg (show ¬((!d.is_dir) = true) from by rw [hdir]; decide), hname]
  dsimp only
  rw [hcd]

/-! ## C3: malformed file names -/

/-- C3 counterexample: a .pmtiles file whose stem does not parse as a
numeric locality id aborts the whole publish run, not just that file.
Country "aa" holds the malformed "x.pmtiles" followed by the valid,
unmapped "2.pmtiles" against a fully benign environment; the run
returns the invalid-id error, performs zero upload calls, and locality
2 never acquires a mapping. -/
theorem malformed_name_aborts_scan_counterexample :
    (runPublish
      ⟨fun _ => .found, fun _ _ => some "cid", fun _ _ => 1, fun _ => true⟩
      (some [⟨true, some "aa",
        [⟨true, some "x", some "pmtiles"⟩,
         ⟨true, some "2", some "pmtiles"⟩]⟩]) []).result =
      .error .invalidLocalityId ∧
    (runPublish
      ⟨fun _ => .found, fun _ _ => some "cid", fun _ _ => 1, fun _ => true⟩
      (some [⟨true, some "aa",
        [⟨true, some "x", some "pmtiles"⟩,
         ⟨true, some "2", some "pmtiles"⟩]⟩]) []).uploads = [] ∧
    parseU32 "2" = some 2 ∧
    hasCidMapping (runPublish
      ⟨fun _ => .found, fun _ _ => some "cid", fun _ _ => 1, fun _ => true⟩
      (some [⟨true, some "aa",
        [⟨true, some "x", some "pmtiles"⟩,
         ⟨true, some "2", some "pmtiles"⟩]⟩]) []).state.mappings "aa" 2 =
      false := by
  refine ⟨rfl, rfl, by decide, by decide⟩

/-- C3 amended: a .pmtiles file whose stem does not parse as a numeric
locality identifier is a hard error for the whole publish run: the
question-mark operator propagates it out of process_country_directory
and process_all_localities, so the remaining files and country
directories are not scanned, nothing further is uploaded, and the
pipeline state is returned unchanged from the point of the error. -/
theorem malformed_name_aborts_scan (env : PublishEnv) (country stem : String)
    (rest : List DirEntry) (st : PipelineState)
    (hbad : parseU32 stem = none) :
    (∀ dirs t p, processCountryDirectory env dirs country
        (⟨true, some stem, some "pmtiles"⟩ :: rest) st t p =
      ⟨.error .invalidLocalityId, st, []⟩) ∧
    (∀ moreDirs, processAllLocalities env
        (some (⟨true, some country,
          ⟨true, some stem, some "pmtiles"⟩ :: rest⟩ :: moreDirs)) st =
      ⟨.error .invalidLocalityId, st, []⟩) := by
  have hcd : ∀ dirs t p, processCountryDirectory env dirs country
      (⟨true, some stem, some "pmtiles"⟩ :: rest) st t p =
      ⟨.error .invalidLocalityId, st, []⟩ := by
    intro dirs t p
    unfold processCountryDirectory
    rw [if_neg (show
      ¬((!((⟨true, some stem, some "pmtiles"⟩ : DirEntry).is_file &&
          decide ((⟨true, some stem, some "pmtiles"⟩ : DirEntry).extension =
            some "pmtiles"))) = true) from fun h => Bool.noConfusion h)]
    dsimp only
    rw [hbad]
  refine ⟨hcd, ?_⟩
  intro moreDirs
  exact processAllLocalities_of_dirs_error _ _ _ _ _ _
    (processDirs_cons_error _ _ _ _ _ country _ _ _ rfl rfl (hcd _ 0 0))

/-- C3 amended witness: the malformed stem "x" aborts a concrete scan
with the state handed back untouched. -/
theorem malformed_name_aborts_scan_witness :
    processAllLocalities
      ⟨fun _ => .found, fun _ _ => some "cid", fun _ _ => 1, fun _ => true⟩
      (some [⟨true, some "aa", [⟨true, some "x", some "pmtiles"⟩]⟩])
      ⟨[], UploadQueue.new 10 100, UploadStats.new⟩ =
      ⟨.error .invalidLocalityId,
       ⟨[], UploadQueue.new 10 100, UploadStats.new⟩, []⟩ := by
  exact (malformed_name_aborts_scan
    ⟨fun _ => .found, fun _ _ => some "cid", fun _ _ => 1, fun _ => true⟩
    "aa" "x" [] ⟨[], UploadQueue.new 10 100, UploadStats.new⟩
    (by decide)).2 []

/-! ## Publish idempotence (C2): definitions -/

/-- A directory entry the scanner would try to publish under locality
id i: a file with the extract extension whose stem parses to i and
whose locality the WhosOnFirst lookup knows. -/
def entryEligible (env : PublishEnv) (e : DirEntry) (i : Nat) : Prop :=
  e.is_file = true ∧ e.extension = some "pmtiles" ∧
    ∃ s, e.file_stem = some s ∧ parseU32 s = some i ∧ env.lookup i = .found

/-- A (country, locality) pair the scan over dirs would try to
publish. -/
def EligiblePair (env : PublishEnv) (dirs : List CountryDir) (c : String)
    (i : Nat) : Prop :=
  ∃ d ∈ dirs, d.is_dir = true ∧ d.name = some c ∧
    ∃ e ∈ d.entries, entryEligible env e i

/-- Invariant of the scan state: the queue built by
UploadQueue.new 10 100 keeps its bounds, stays strictly below the batch
trigger between files (a drain fires as soon as it reaches 10), and
holds only pendings whose file exists in the scanned tree. -/
def ScanInv (dirs : List CountryDir) (st : PipelineState) : Prop :=
  st.queue.batch_size = 10 ∧ st.queue.max_size = 100 ∧
    st.queue.queue.length ≤ 9 ∧
    ∀ p ∈ st.queue.queue, fileExists dirs p.country_code p.stem = true

/-- A pair accounted for by the pipeline: durably mapped or pending in
the queue. -/
def Covered (st : PipelineState) (c : String) (i : Nat) : Prop :=
  (c, i) ∈ st.mappings ∨
    ∃ p ∈ st.queue.queue, p.country_code = c ∧ p.locality_id = i

/-! ## Publish idempotence (C2): basic lemmas -/

theorem hasCidMapping_eq_true (m : List (String × Nat)) (c : String)
    (i : Nat) : hasCidMapping m c i = true ↔ (c, i) ∈ m := by
  simp [hasCidMapping]

theorem mem_insertMappingKey_self (m : List (String × Nat))
    (k : String × Nat) : k ∈ insertMappingKey m k := by
  unfold insertMappingKey
  split
  · assumption
  · exact List.mem_cons_self _ _

theorem mem_insertMappingKey_of_mem (m : List (String × Nat))
    (k j : String × Nat) (h : j ∈ m) : j ∈ insertMappingKey m k := by
  unfold insertMappingKey
  split
  · exact h
  · exact List.mem_cons_of_mem _ h

theorem mem_upsertAll_of_mem :
    ∀ (l : List CompletedUpload) (m : List (String × Nat))
      (k : String × Nat), k ∈ m → k ∈ upsertAll m l := by
  intro l
  induction l with
  | nil => intro m k h; exact h
  | cons u tl ih =>
    intro m k h
    exact ih _ _ (mem_insertMappingKey_of_mem _ _ _ h)

theorem mem_upsertAll_of_key :
    ∀ (l : List CompletedUpload) (m : List (String × Nat))
      (u : CompletedUpload), u ∈ l →
      (u.country_code, u.locality_id) ∈ upsertAll m l := by
  intro l
  induction l with
  | nil => intro m u h; exact absurd h (List.not_mem_nil u)
  | cons v tl ih =>
    intro m u h
    rcases List.mem_cons.mp h with h1 | h2
    · subst h1
      exact mem_upsertAll_of_mem tl _ _ (mem_insertMappingKey_self _ _)
    · exact ih _ _ h2

/-- A file found by the scan in a country directory exists in the
scanned tree under that country name. -/
theorem fileExists_of_entry (dirs : List CountryDir) (d : CountryDir)
    (e : DirEntry) (c s : String) (hd : d ∈ dirs) (hname : d.name = some c)
    (he : e ∈ d.entries) (hf : e.is_file = true)
    (hstem : e.file_stem = some s) (hext : e.extension = some "pmtiles") :
    fileExists dirs c s = true := by
  unfold fileExists
  rw [List.any_eq_true]
  refine ⟨d, hd, ?_⟩
  rw [Bool.and_eq_true, List.any_eq_true]
  exact ⟨by simp [hname], e, he, by simp [hf, hstem, hext]⟩

/-- With a benign store, uploading a pending whose file exists yields a
CompletedUpload carrying the same key. -/
theorem uploadSingleFile_ok (env : PublishEnv) (dirs : List CountryDir)
    (p : PendingUpload) (hup : ∀ c s, (env.upload c s).isSome = true)
    (hex : fileExists dirs p.country_code p.stem = true) :
    ∃ cid, (uploadSingleFile env dirs p).1 =
      .ok ⟨p.country_code, p.locality_id, cid,
        env.fileSize p.country_code p.stem⟩ := by
  obtain ⟨cid, hcid⟩ := Option.isSome_iff_exists.mp (hup p.country_code p.stem)
  refine ⟨cid, ?_⟩
  unfold uploadSingleFile
  rw [if_pos hex, hcid]

/-- With a benign store, every item of a batch of existing files
uploads successfully and the successes carry exactly the batch's
keys. -/
theorem batchSuccesses_map_key (env : PublishEnv) (dirs : List CountryDir)
    (hup : ∀ c s, (env.upload c s).isSome = true) :
    ∀ batch : List PendingUpload,
      (∀ p ∈ batch, fileExists dirs p.country_code p.stem = true) →
      (batchSuccesses env dirs batch).map
          (fun u => (u.country_code, u.locality_id)) =
        batch.map (fun p => (p.country_code, p.locality_id)) := by
  intro batch
  induction batch with
  | nil => intro _; rfl
  | cons p tl ih =>
    intro h
    have hex := h p (List.mem_cons_self p tl)
    have htl := fun q hq => h q (List.mem_cons_of_mem p hq)
    obtain ⟨cid, hcid⟩ := uploadSingleFile_ok env dirs p hup hex
    unfold batchSuccesses
    simp only [List.map_cons]
    rw [hcid, List.filterMap_cons]
    simp only [Except.toOption, List.map_cons]
    have ihe := ih htl
    unfold batchSuccesses at ihe
    rw [ihe]

theorem batchSuccesses_ne_nil (env : PublishEnv) (dirs : List CountryDir)
    (batch : List PendingUpload)
    (hup : ∀ c s, (env.upload c s).isSome = true)
    (hball : ∀ p ∈ batch, fileExists dirs p.country_code p.stem = true)
    (hbne : batch ≠ []) : batchSuccesses env dirs batch ≠ [] := by
  intro hnil
  have h := batchSuccesses_map_key env dirs hup batch hball
  rw [hnil] at h
  exact hbne (by
    cases batch with
    | nil => rfl
    | cons a l => simp at h)

/-- With a benign environment, draining a queue of at most one batch of
existing files succeeds, empties the queue, keeps every old mapping and
durably maps every drained pending. -/
theorem processUploadQueue_benign (env : PublishEnv) (dirs : List CountryDir)
    (st : PipelineState)
    (hup : ∀ c s, (env.upload c s).isSome = true)
    (hins : ∀ l, env.insertOk l = true)
    (hlen : st.queue.queue.length ≤ st.queue.batch_size)
    (hex : ∀ p ∈ st.queue.queue, fileExists dirs p.country_code p.stem = true) :
    (processUploadQueue env dirs st).result = .ok () ∧
    (processUploadQueue env dirs st).state.queue =
      ⟨[], st.queue.batch_size, st.queue.max_size⟩ ∧
    (∀ k ∈ st.mappings, k ∈ (processUploadQueue env dirs st).state.mappings) ∧
    ∀ p ∈ st.queue.queue,
      (p.country_code, p.locality_id) ∈
        (processUploadQueue env dirs st).state.mappings := by
  have htake : (st.queue.takeBatch).1 = st.queue.queue :=
    List.take_of_length_le hlen
  have htb2 : (st.queue.takeBatch).2 =
      ⟨[], st.queue.batch_size, st.queue.max_size⟩ := by
    unfold UploadQueue.takeBatch
    rw [List.drop_eq_nil_of_le hlen]
  by_cases hq : st.queue.queue = []
  · unfold processUploadQueue
    dsimp only
    rw [if_pos (by rw [htake, hq]; rfl)]
    refine ⟨rfl, htb2, fun k hk => hk, ?_⟩
    intro p hp
    rw [hq] at hp
    exact absurd hp (List.not_mem_nil p)
  · have hbne : (st.queue.takeBatch).1 ≠ [] := by rw [htake]; exact hq
    have hball : ∀ p ∈ (st.queue.takeBatch).1,
        fileExists dirs p.country_code p.stem = true := by
      rw [htake]; exact hex
    have hsne : batchSuccesses env dirs (st.queue.takeBatch).1 ≠ [] :=
      batchSuccesses_ne_nil env dirs _ hup hball hbne
    unfold processUploadQueue
    dsimp only
    rw [if_neg (by simpa [List.isEmpty_iff] using hbne),
      if_neg (by simpa [List.isEmpty_iff] using hsne),
      hins (batchSuccesses env dirs (st.queue.takeBatch).1), if_pos rfl]
    refine ⟨rfl, htb2, ?_, ?_⟩
    · intro k hk
      exact mem_upsertAll_of_mem _ _ _ hk
    · intro p hp
      have hkeys := batchSuccesses_map_key env dirs hup _ hball
      have hpk : (p.country_code, p.locality_id) ∈
          (batchSuccesses env dirs (st.queue.takeBatch).1).map
            (fun u => (u.country_code, u.locality_id)) := by
        rw [hkeys, htake]
        exact List.mem_map_of_mem _ hp
      obtain ⟨u, hu, hk⟩ := List.mem_map.mp hpk
      have := mem_upsertAll_of_key _ st.mappings u hu
      rw [hk] at this
      exact this

/-- A file whose pair is already mapped is skipped without touching the
state. -/
theorem processFileForUpload_mapped (env : PublishEnv)
    (dirs : List CountryDir) (st : PipelineState) (c stem : String)
    (i : Nat) (h : (c, i) ∈ st.mappings) :
    processFileForUpload env dirs st c stem i = ⟨.ok false, st, []⟩ := by
  unfold processFileForUpload
  rw [if_pos (by simp [hasCidMapping, h])]

/-- With a benign environment, processing one existing file preserves
the scan invariant, only grows the mappings, keeps every covered pair
covered, and covers the file's own pair. -/
theorem processFileForUpload_benign (env : PublishEnv)
    (dirs : List CountryDir) (st : PipelineState) (c stem : String) (i : Nat)
    (hup : ∀ c s, (env.upload c s).isSome = true)
    (hins : ∀ l, env.insertOk l = true)
    (hInv : ScanInv dirs st) (hex : fileExists dirs c stem = true) :
    (∃ b, (processFileForUpload env dirs st c stem i).result = .ok b) ∧
    ScanInv dirs (processFileForUpload env dirs st c stem i).state ∧
    (∀ k ∈ st.mappings,
      k ∈ (processFileForUpload env dirs st c stem i).state.mappings) ∧
    (∀ c' i', Covered st c' i' →
      Covered (processFileForUpload env dirs st c stem i).state c' i') ∧
    Covered (processFileForUpload env dirs st c stem i).state c i := by
  obtain ⟨hbs, hms, hlen, hqex⟩ := hInv
  by_cases hmap : (c, i) ∈ st.mappings
  · rw [processFileForUpload_mapped env dirs st c stem i hmap]
    exact ⟨⟨false, rfl⟩, ⟨hbs, hms, hlen, hqex⟩, fun k hk => hk,
      fun c' i' h => h, Or.inl hmap⟩
  · unfold processFileForUpload
    rw [if_neg (by simp [hasCidMapping, hmap])]
    have hadd : st.queue.addUpload ⟨c, i, stem⟩ =
        .ok ⟨st.queue.queue ++ [⟨c, i, stem⟩], st.queue.batch_size,
          st.queue.max_size⟩ := by
      unfold UploadQueue.addUpload
      rw [if_neg (by omega)]
    rw [hadd]
    dsimp only
    have hex1 : ∀ p ∈ st.queue.queue ++ [(⟨c, i, stem⟩ : PendingUpload)],
        fileExists dirs p.country_code p.stem = true := by
      intro p hp
      rcases List.mem_append.mp hp with h | h
      · exact hqex p h
      · rw [List.mem_singleton.mp h]
        exact hex
    by_cases hfull : (UploadQueue.mk
        (st.queue.queue ++ [⟨c, i, stem⟩]) st.queue.batch_size
        st.queue.max_size).isFull = true
    · rw [if_pos hfull]
      have hlen1 : (UploadQueue.mk (st.queue.queue ++ [⟨c, i, stem⟩])
          st.queue.batch_size st.queue.max_size).queue.length ≤
          st.queue.batch_size := by
        simp only [List.length_append, List.length_singleton]
        omega
      have hM1 := processUploadQueue_benign env dirs
        ⟨st.mappings, ⟨st.queue.queue ++ [⟨c, i, stem⟩], st.queue.batch_size,
          st.queue.max_size⟩, st.stats⟩ hup hins hlen1 hex1
      rw [hM1.1]
      dsimp only
      refine ⟨⟨true, rfl⟩, ?_, ?_, ?_, ?_⟩
      · unfold ScanInv
        rw [hM1.2.1]
        exact ⟨hbs, hms, Nat.zero_le 9,
          fun p hp => absurd hp (List.not_mem_nil p)⟩
      · intro k hk
        exact hM1.2.2.1 k hk
      · intro c' i' hcv
        rcases hcv with h | ⟨p, hp, hpc, hpi⟩
        · exact Or.inl (hM1.2.2.1 _ h)
        · refine Or.inl ?_
          have := hM1.2.2.2 p (List.mem_append_left _ hp)
          rw [hpc, hpi] at this
          exact this
      · refine Or.inl ?_
        exact hM1.2.2.2 ⟨c, i, stem⟩
          (List.mem_append_right _ (List.mem_singleton_self _))
    · rw [if_neg hfull]
      have hlt : st.queue.queue.length + 1 < 10 := by
        simp only [UploadQueue.isFull, List.length_append, List.length_cons,
          List.length_nil, decide_eq_true_eq, hbs] at hfull
        omega
      have hqlen : (st.queue.queue ++ [(⟨c, i, stem⟩ : PendingUpload)]).length ≤ 9 := by
        rw [List.length_append]
        simp only [List.length_cons, List.length_nil]
        omega
      refine ⟨⟨true, rfl⟩, ⟨hbs, hms, hqlen, hex1⟩,
        fun k hk => hk, ?_, ?_⟩
      · intro c' i' hcv
        rcases hcv with h | ⟨p, hp, hpc, hpi⟩
        · exact Or.inl h
        · exact Or.inr ⟨p, List.mem_append_left _ hp, hpc, hpi⟩
      · exact Or.inr ⟨⟨c, i, stem⟩,
          List.mem_append_right _ (List.mem_singleton_self _), rfl, rfl⟩

/-- With a benign environment, scanning the entries of one country
directory either errors out or succeeds with the scan invariant intact,
the mappings only grown, every covered pair still covered, and every
eligible entry of the directory covered. -/
theorem processCountryDirectory_benign (env : PublishEnv)
    (dirs : List CountryDir) (d : CountryDir) (c : String)
    (hup : ∀ c s, (env.upload c s).isSome = true)
    (hins : ∀ l, env.insertOk l = true)
    (hdmem : d ∈ dirs) (hname : d.name = some c) :
    ∀ es : List DirEntry, (∀ e ∈ es, e ∈ d.entries) →
    ∀ st t p, ScanInv dirs st →
      (∃ er, (processCountryDirectory env dirs c es st t p).result =
        .error er) ∨
      (∃ v, (processCountryDirectory env dirs c es st t p).result = .ok v ∧
        ScanInv dirs (processCountryDirectory env dirs c es st t p).state ∧
        (∀ k ∈ st.mappings,
          k ∈ (processCountryDirectory env dirs c es st t p).state.mappings) ∧
        (∀ c' i', Covered st c' i' →
          Covered (processCountryDirectory env dirs c es st t p).state c' i') ∧
        ∀ i e, e ∈ es → entryEligible env e i →
          Covered (processCountryDirectory env dirs c es st t p).state c i) := by
  intro es
  induction es with
  | nil =>
    intro hsub st t p hInv
    right
    exact ⟨(t, p), rfl, hInv, fun k hk => hk, fun _ _ h => h,
      fun i e he _ => absurd he (List.not_mem_nil e)⟩
  | cons e rest ih =>
    intro hsub st t p hInv
    have hesub : ∀ x ∈ rest, x ∈ d.entries :=
      fun x hx => hsub x (List.mem_cons_of_mem e hx)
    have hemem : e ∈ d.entries := hsub e (List.mem_cons_self e rest)
    by_cases hguard :
        (!(e.is_file && decide (e.extension = some "pmtiles"))) = true
    · have hskip : processCountryDirectory env dirs c (e :: rest) st t p =
          processCountryDirectory env dirs c rest st t p := by
        simp only [processCountryDirectory]
        rw [if_pos hguard]
      rw [hskip]
      rcases ih hesub st t p hInv with h | ⟨v, hres, hinv2, hm2, hcov2, helig2⟩
      · exact Or.inl h
      · right
        refine ⟨v, hres, hinv2, hm2, hcov2, ?_⟩
        intro i e' he' hel
        rcases List.mem_cons.mp he' with he1 | he2
        · exfalso
          subst he1
          obtain ⟨hf, hx, _⟩ := hel
          rw [hf, hx] at hguard
          simp at hguard
        · exact helig2 i e' he2 hel
    · have hand : (e.is_file && decide (e.extension = some "pmtiles")) = true := by
        rcases Bool.eq_false_or_eq_true
          (e.is_file && decide (e.extension = some "pmtiles")) with hb | hb
        · exact hb
        · exact absurd (by rw [hb]; rfl) hguard
      have hfx : e.is_file = true ∧ e.extension = some "pmtiles" := by
        simpa only [Bool.and_eq_true, decide_eq_true_eq] using hand
      cases hstem : e.file_stem with
      | none =>
        left
        refine ⟨.invalidFilename, ?_⟩
        simp only [processCountryDirectory]
        rw [if_neg hguard, hstem]
      | some s =>
        cases hparse : parseU32 s with
        | none =>
          left
          refine ⟨.invalidLocalityId, ?_⟩
          simp only [processCountryDirectory]
          rw [if_neg hguard, hstem]
          dsimp only
          rw [hparse]
        | some i0 =>
          cases hlook : env.lookup i0 with
          | notFound =>
            have hskip : processCountryDirectory env dirs c (e :: rest) st t p =
                processCountryDirectory env dirs c rest st (t + 1) p := by
              simp only [processCountryDirectory]
              rw [if_neg hguard, hstem]
              dsimp only
              rw [hparse]
              dsimp only
              rw [hlook]
            rw [hskip]
            rcases ih hesub st (t + 1) p hInv with
              h | ⟨v, hres, hinv2, hm2, hcov2, helig2⟩
            · exact Or.inl h
            · right
              refine ⟨v, hres, hinv2, hm2, hcov2, ?_⟩
              intro i e' he' hel
              rcases List.mem_cons.mp he' with he1 | he2
              · exfalso
                subst he1
                obtain ⟨_, _, s', hs', hp', hl'⟩ := hel
                rw [hstem] at hs'
                injection hs' with hs'
                subst hs'
                rw [hparse] at hp'
                injection hp' with hp'
                subst hp'
                rw [hlook] at hl'
                cases hl'
              · exact helig2 i e' he2 hel
          | dbError =>
            have hskip : processCountryDirectory env dirs c (e :: rest) st t p =
                processCountryDirectory env dirs c rest st (t + 1) p := by
              simp only [processCountryDirectory]
              rw [if_neg hguard, hstem]
              dsimp only
              rw [hparse]
              dsimp only
              rw [hlook]
            rw [hskip]
            rcases ih hesub st (t + 1) p hInv with
              h | ⟨v, hres, hinv2, hm2, hcov2, helig2⟩
            · exact Or.inl h
            · right
              refine ⟨v, hres, hinv2, hm2, hcov2, ?_⟩
              intro i e' he' hel
              rcases List.mem_cons.mp he' with he1 | he2
              · exfalso
                subst he1
                obtain ⟨_, _, s', hs', hp', hl'⟩ := hel
                rw [hstem] at hs'
                injection hs' with hs'
                subst hs'
                rw [hparse] at hp'
                injection hp' with hp'
                subst hp'
                rw [hlook] at hl'
                cases hl'
              · exact helig2 i e' he2 hel
          | found =>
            have hfe : fileExists dirs c s = true :=
              fileExists_of_entry dirs d e c s hdmem hname hemem hfx.1
                hstem hfx.2
            obtain ⟨⟨b, hb⟩, hinv1, hm1, hcov1, hcovci⟩ :=
              processFileForUpload_benign env dirs st c s i0 hup hins hInv hfe
            have hstep : processCountryDirectory env dirs c (e :: rest) st t p =
                ⟨(processCountryDirectory env dirs c rest
                    (processFileForUpload env dirs st c s i0).state (t + 1)
                    (if b then p + 1 else p)).result,
                 (processCountryDirectory env dirs c rest
                    (processFileForUpload env dirs st c s i0).state (t + 1)
                    (if b then p + 1 else p)).state,
                 (processFileForUpload env dirs st c s i0).uploads ++
                   (processCountryDirectory env dirs c rest
                     (processFileForUpload env dirs st c s i0).state (t + 1)
                     (if b then p + 1 else p)).uploads⟩ := by
              simp only [processCountryDirectory]
              rw [if_neg hguard, hstem]
              dsimp only
              rw [hparse]
              dsimp only
              rw [hlook]
              dsimp only
              rw [hb]
            rw [hstep]
            rcases ih hesub (processFileForUpload env dirs st c s i0).state
              (t + 1) (if b then p + 1 else p) hinv1 with
              h | ⟨v, hres, hinv2, hm2, hcov2, helig2⟩
            · rcases h with ⟨er, her⟩
              exact Or.inl ⟨er, her⟩
            · right
              refine ⟨v, hres, hinv2, fun k hk => hm2 k (hm1 k hk),
                fun c' i' h => hcov2 c' i' (hcov1 c' i' h), ?_⟩
              intro i e' he' hel
              rcases List.mem_cons.mp he' with he1 | he2
              · subst he1
                obtain ⟨_, _, s', hs', hp', _⟩ := hel
                rw [hstem] at hs'
                injection hs' with hs'
                subst hs'
                rw [hparse] at hp'
                injection hp' with hp'
                subst hp'
                exact hcov2 c i0 hcovci
              · exact helig2 i e' he2 hel

/-- With a benign environment, the country loop either errors out or
succeeds with the scan invariant intact, the mappings only grown, every
covered pair still covered, and every eligible pair of the processed
directories covered. -/
theorem processDirs_benign (env : PublishEnv) (dirs : List CountryDir)
    (hup : ∀ c s, (env.upload c s).isSome = true)
    (hins : ∀ l, env.insertOk l = true) :
    ∀ ds : List CountryDir, (∀ d ∈ ds, d ∈ dirs) →
    ∀ st, ScanInv dirs st →
      (∃ er, (processDirs env dirs ds st).result = .error er) ∨
      (∃ v, (processDirs env dirs ds st).result = .ok v ∧
        ScanInv dirs (processDirs env dirs ds st).state ∧
        (∀ k ∈ st.mappings, k ∈ (processDirs env dirs ds st).state.mappings) ∧
        (∀ c' i', Covered st c' i' →
          Covered (processDirs env dirs ds st).state c' i') ∧
        ∀ c i d, d ∈ ds → d.is_dir = true → d.name = some c →
          (∃ e ∈ d.entries, entryEligible env e i) →
          Covered (processDirs env dirs ds st).state c i) := by
  intro ds
  induction ds with
  | nil =>
    intro hsub st hInv
    right
    exact ⟨(), rfl, hInv, fun k hk => hk, fun _ _ h => h,
      fun c i d hd _ _ _ => absurd hd (List.not_mem_nil d)⟩
  | cons d rest ih =>
    intro hsub st hInv
    have hdsub : ∀ x ∈ rest, x ∈ dirs :=
      fun x hx => hsub x (List.mem_cons_of_mem d hx)
    have hdmem : d ∈ dirs := hsub d (List.mem_cons_self d rest)
    cases hdd : d.is_dir with
    | false =>
      have hskip : processDirs env dirs (d :: rest) st =
          processDirs env dirs rest st := by
        simp only [processDirs]
        rw [if_pos (by rw [hdd]; rfl)]
      rw [hskip]
      rcases ih hdsub st hInv with h | ⟨v, hres, hinv2, hm2, hcov2, helig2⟩
      · exact Or.inl h
      · right
        refine ⟨v, hres, hinv2, hm2, hcov2, ?_⟩
        intro c i d' hd' hdir' hname' hel
        rcases List.mem_cons.mp hd' with hd1 | hd2
        · exfalso
          subst hd1
          rw [hdd] at hdir'
          cases hdir'
        · exact helig2 c i d' hd2 hdir' hname' hel
    | true =>
      cases hnm : d.name with
      | none =>
        left
        refine ⟨.invalidCountryName, ?_⟩
        simp only [processDirs]
        rw [if_neg (by rw [hdd]; decide), hnm]
      | some c =>
        obtain hM3 := processCountryDirectory_benign env dirs d c hup hins
          hdmem hnm d.entries (fun e he => he) st 0 0 hInv
        rcases hM3 with ⟨er, her⟩ | ⟨v, hres, hinv1, hm1, hcov1, helig1⟩
        · left
          refine ⟨er, ?_⟩
          simp only [processDirs]
          rw [if_neg (by rw [hdd]; decide), hnm]
          dsimp only
          rw [her]
        · have hstep : processDirs env dirs (d :: rest) st =
              ⟨(processDirs env dirs rest
                  (processCountryDirectory env dirs c d.entries st 0 0).state).result,
               (processDirs env dirs rest
                  (processCountryDirectory env dirs c d.entries st 0 0).state).state,
               (processCountryDirectory env dirs c d.entries st 0 0).uploads ++
                 (processDirs env dirs rest
                   (processCountryDirectory env dirs c d.entries st 0 0).state).uploads⟩ := by
            simp only [processDirs]
            rw [if_neg (by rw [hdd]; decide), hnm]
            dsimp only
            rw [hres]
          rw [hstep]
          rcases ih hdsub
            (processCountryDirectory env dirs c d.entries st 0 0).state hinv1 with
            ⟨er, her⟩ | ⟨v2, hres2, hinv2, hm2, hcov2, helig2⟩
          · exact Or.inl ⟨er, her⟩
          · right
            refine ⟨v2, hres2, hinv2, fun k hk => hm2 k (hm1 k hk),
              fun c' i' h => hcov2 c' i' (hcov1 c' i' h), ?_⟩
            intro c0 i d' hd' hdir' hname' hel
            rcases List.mem_cons.mp hd' with hd1 | hd2
            · subst hd1
              rw [hnm] at hname'
              injection hname' with hname'
              subst hname'
              obtain ⟨e, he, hel'⟩ := hel
              exact hcov2 _ _ (helig1 i e he hel')
            · exact helig2 c0 i d' hd2 hdir' hname' hel

/-- With a benign environment, a publish run that returns Ok leaves a
dedup mapping for every pair the scan over dirs can publish. -/
theorem runPublish_covers (env : PublishEnv) (dirs : List CountryDir)
    (m : List (String × Nat))
    (hup : ∀ c s, (env.upload c s).isSome = true)
    (hins : ∀ l, env.insertOk l = true)
    (hok : (runPublish env (some dirs) m).result = .ok ()) :
    ∀ c i, EligiblePair env dirs c i →
      (c, i) ∈ (runPublish env (some dirs) m).state.mappings := by
  intro c i hpair
  obtain ⟨d, hd, hdir, hname, e, he, helig⟩ := hpair
  have hInv0 : ScanInv dirs ⟨m, UploadQueue.new 10 100, UploadStats.new⟩ :=
    ⟨rfl, rfl, Nat.zero_le 9, fun p hp => absurd hp (List.not_mem_nil p)⟩
  rcases processDirs_benign env dirs hup hins dirs (fun x hx => hx)
    ⟨m, UploadQueue.new 10 100, UploadStats.new⟩ hInv0 with
    ⟨er, her⟩ | ⟨v, hres, hinv1, hm1, hcov1, helig1⟩
  · exfalso
    have : (runPublish env (some dirs) m).result = .error er := by
      show (processAllLocalities env (some dirs)
        ⟨m, UploadQueue.new 10 100, UploadStats.new⟩).result = .error er
      rw [processAllLocalities_some, her]
    rw [this] at hok
    cases hok
  · have hcovered : Covered (processDirs env dirs dirs
        ⟨m, UploadQueue.new 10 100, UploadStats.new⟩).state c i :=
      helig1 c i d hd hdir hname ⟨e, he, helig⟩
    show (c, i) ∈ (processAllLocalities env (some dirs)
      ⟨m, UploadQueue.new 10 100, UploadStats.new⟩).state.mappings
    rw [processAllLocalities_some, hres]
    dsimp only
    cases hqe : (processDirs env dirs dirs
        ⟨m, UploadQueue.new 10 100, UploadStats.new⟩).state.queue.isEmpty with
    | true =>
      rw [if_neg (show ¬((!true) = true) by decide)]
      rcases hcovered with h | ⟨p, hp, _, _⟩
      · exact h
      · exfalso
        have hqnil : (processDirs env dirs dirs
            ⟨m, UploadQueue.new 10 100, UploadStats.new⟩).state.queue.queue = [] := by
          have := hqe
          unfold UploadQueue.isEmpty at this
          exact List.isEmpty_iff.mp this
        rw [hqnil] at hp
        exact absurd hp (List.not_mem_nil p)
    | false =>
      rw [if_pos (show ((!false) = true) by decide)]
      obtain ⟨hbs, hms, hlen, hqex⟩ := hinv1
      have hM1 := processUploadQueue_benign env dirs
        (processDirs env dirs dirs
          ⟨m, UploadQueue.new 10 100, UploadStats.new⟩).state hup hins
        (by rw [hbs]; omega) hqex
      rcases hcovered with h | ⟨p, hp, hpc, hpi⟩
      · exact hM1.2.2.1 _ h
      · have := hM1.2.2.2 p hp
        rw [hpc, hpi] at this
        exact this

/-- When every eligible entry of a country directory is already
mapped, scanning it changes nothing and uploads nothing (even if a
malformed entry aborts it midway). -/
theorem processCountryDirectory_silent (env : PublishEnv)
    (dirs : List CountryDir) (c : String) :
    ∀ (es : List DirEntry) (st : PipelineState) (t p : Nat),
      (∀ i e, e ∈ es → entryEligible env e i → (c, i) ∈ st.mappings) →
      (processCountryDirectory env dirs c es st t p).state = st ∧
      (processCountryDirectory env dirs c es st t p).uploads = [] := by
  intro es
  induction es with
  | nil => intro st t p _; exact ⟨rfl, rfl⟩
  | cons e rest ih =>
    intro st t p hcov
    have hrest : ∀ i e', e' ∈ rest → entryEligible env e' i →
        (c, i) ∈ st.mappings :=
      fun i e' he' hel => hcov i e' (List.mem_cons_of_mem e he') hel
    by_cases hguard :
        (!(e.is_file && decide (e.extension = some "pmtiles"))) = true
    · have hskip : processCountryDirectory env dirs c (e :: rest) st t p =
          processCountryDirectory env dirs c rest st t p := by
        simp only [processCountryDirectory]
        rw [if_pos hguard]
      rw [hskip]
      exact ih st t p hrest
    · have hand : (e.is_file && decide (e.extension = some "pmtiles")) = true := by
        rcases Bool.eq_false_or_eq_true
          (e.is_file && decide (e.extension = some "pmtiles")) with hb | hb
        · exact hb
        · exact absurd (by rw [hb]; rfl) hguard
      have hfx : e.is_file = true ∧ e.extension = some "pmtiles" := by
        simpa only [Bool.and_eq_true, decide_eq_true_eq] using hand
      cases hstem : e.file_stem with
      | none =>
        have hstop : processCountryDirectory env dirs c (e :: rest) st t p =
            ⟨.error .invalidFilename, st, []⟩ := by
          simp only [processCountryDirectory]
          rw [if_neg hguard, hstem]
        rw [hstop]
        exact ⟨rfl, rfl⟩
      | some s =>
        cases hparse : parseU32 s with
        | none =>
          have hstop : processCountryDirectory env dirs c (e :: rest) st t p =
              ⟨.error .invalidLocalityId, st, []⟩ := by
            simp only [processCountryDirectory]
            rw [if_neg hguard, hstem]
            dsimp only
            rw [hparse]
          rw [hstop]
          exact ⟨rfl, rfl⟩
        | some i0 =>
          cases hlook : env.lookup i0 with
          | notFound =>
            have hskip : processCountryDirectory env dirs c (e :: rest) st t p =
                processCountryDirectory env dirs c rest st (t + 1) p := by
              simp only [processCountryDirectory]
              rw [if_neg hguard, hstem]
              dsimp only
              rw [hparse]
              dsimp only
              rw [hlook]
            rw [hskip]
            exact ih st (t + 1) p hrest
          | dbError =>
            have hskip : processCountryDirectory env dirs c (e :: rest) st t p =
                processCountryDirectory env dirs c rest st (t + 1) p := by
              simp only [processCountryDirectory]
              rw [if_neg hguard, hstem]
              dsimp only
              rw [hparse]
              dsimp only
              rw [hlook]
            rw [hskip]
            exact ih st (t + 1) p hrest
          | found =>
            have hmap : (c, i0) ∈ st.mappings :=
              hcov i0 e (List.mem_cons_self e rest)
                ⟨hfx.1, hfx.2, s, hstem, hparse, hlook⟩
            have hpf := processFileForUpload_mapped env dirs st c s i0 hmap
            have hstep : processCountryDirectory env dirs c (e :: rest) st t p =
                ⟨(processCountryDirectory env dirs c rest st (t + 1) p).result,
                 (processCountryDirectory env dirs c rest st (t + 1) p).state,
                 [] ++ (processCountryDirectory env dirs c rest st
                   (t + 1) p).uploads⟩ := by
              simp only [processCountryDirectory]
              rw [if_neg hguard, hstem]
              dsimp only
              rw [hparse]
              dsimp only
              rw [hlook]
              dsimp only
              rw [hpf]
              rfl
            rw [hstep]
            obtain ⟨h1, h2⟩ := ih st (t + 1) p hrest
            exact ⟨h1, by rw [List.nil_append]; exact h2⟩

/-- When every eligible pair of the processed directories is already
mapped, the country loop changes nothing and uploads nothing. -/
theorem processDirs_silent (env : PublishEnv) (dirs : List CountryDir) :
    ∀ (ds : List CountryDir) (st : PipelineState),
      (∀ c i d, d ∈ ds → d.is_dir = true → d.name = some c →
        (∃ e ∈ d.entries, entryEligible env e i) → (c, i) ∈ st.mappings) →
      (processDirs env dirs ds st).state = st ∧
      (processDirs env dirs ds st).uploads = [] := by
  intro ds
  induction ds with
  | nil => intro st _; exact ⟨rfl, rfl⟩
  | cons d rest ih =>
    intro st hcov
    have hrest : ∀ c i d', d' ∈ rest → d'.is_dir = true →
        d'.name = some c → (∃ e ∈ d'.entries, entryEligible env e i) →
        (c, i) ∈ st.mappings :=
      fun c i d' hd' => hcov c i d' (List.mem_cons_of_mem d hd')
    cases hdd : d.is_dir with
    | false =>
      have hskip : processDirs env dirs (d :: rest) st =
          processDirs env dirs rest st := by
        simp only [processDirs]
        rw [if_pos (by rw [hdd]; rfl)]
      rw [hskip]
      exact ih st hrest
    | true =>
      cases hnm : d.name with
      | none =>
        have hstop : processDirs env dirs (d :: rest) st =
            ⟨.error .invalidCountryName, st, []⟩ := by
          simp only [processDirs]
          rw [if_neg (by rw [hdd]; decide), hnm]
        rw [hstop]
        exact ⟨rfl, rfl⟩
      | some c =>
        have hcd := processCountryDirectory_silent env dirs c d.entries st 0 0
          (fun i e he hel =>
            hcov c i d (List.mem_cons_self d rest) hdd hnm ⟨e, he, hel⟩)
        cases hres : (processCountryDirectory env dirs c d.entries st 0 0).result with
        | error e0 =>
          have hstop : processDirs env dirs (d :: rest) st =
              ⟨.error e0,
               (processCountryDirectory env dirs c d.entries st 0 0).state,
               (processCountryDirectory env dirs c d.entries st 0 0).uploads⟩ := by
            simp only [processDirs]
            rw [if_neg (by rw [hdd]; decide), hnm]
            dsimp only
            rw [hres]
          rw [hstop]
          exact ⟨hcd.1, hcd.2⟩
        | ok v =>
          have hstep : processDirs env dirs (d :: rest) st =
              ⟨(processDirs env dirs rest
                  (processCountryDirectory env dirs c d.entries st 0 0).state).result,
               (processDirs env dirs rest
                  (processCountryDirectory env dirs c d.entries st 0 0).state).state,
               (processCountryDirectory env dirs c d.entries st 0 0).uploads ++
                 (processDirs env dirs rest
                   (processCountryDirectory env dirs c d.entries st 0 0).state).uploads⟩ := by
            simp only [processDirs]
            rw [if_neg (by rw [hdd]; decide), hnm]
            dsimp only
            rw [hres]
          rw [hstep, hcd.1]
          obtain ⟨h1, h2⟩ := ih st hrest
          exact ⟨h1, by rw [hcd.2, List.nil_append]; exact h2⟩

/-- A publish run over a state that already maps every eligible pair
and has an empty queue performs no upload calls at all. -/
theorem processAllLocalities_silent (env : PublishEnv)
    (dirs : List CountryDir) (st : PipelineState)
    (hcov : ∀ c i, EligiblePair env dirs c i → (c, i) ∈ st.mappings)
    (hq : st.queue.queue = []) :
    (processAllLocalities env (some dirs) st).uploads = [] := by
  have hd := processDirs_silent env dirs dirs st
    (fun c i d hdm hdir hname hel => hcov c i ⟨d, hdm, hdir, hname, hel⟩)
  rw [processAllLocalities_some]
  cases hres : (processDirs env dirs dirs st).result with
  | error e =>
    dsimp only
    exact hd.2
  | ok v =>
    dsimp only
    rw [hd.1]
    rw [show st.queue.isEmpty = true from by
      unfold UploadQueue.isEmpty; rw [hq]; rfl]
    rw [if_neg (show ¬((!true) = true) by decide)]
    exact hd.2

/-- C2: publish idempotence.  Against benign collaborators (every
content-store upload succeeds and every dedup upsert succeeds), if a
publish run over an on-disk tree returns Ok, then a second run over the
same tree and the same WhosOnFirst data, starting from the dedup
mappings the first run left behind and with no intervening changes,
issues zero upload calls: every file whose (country_code, locality_id)
already has a mapping is skipped before being enqueued. -/
theorem publish_idempotent (env : PublishEnv)
    (root : Option (List CountryDir)) (m : List (String × Nat))
    (hup : ∀ c s, (env.upload c s).isSome = true)
    (hins : ∀ l, env.insertOk l = true)
    (hok : (runPublish env root m).result = .ok ()) :
    (runPublish env root (runPublish env root m).state.mappings).uploads = [] := by
  cases root with
  | none => rfl
  | some dirs =>
    exact processAllLocalities_silent env dirs
      ⟨(runPublish env (some dirs) m).state.mappings, UploadQueue.new 10 100,
        UploadStats.new⟩
      (fun c i hp => runPublish_covers env dirs m hup hins hok c i hp) rfl

/-- C2 witness: a benign environment and a tree with one publishable
file; the first run maps it and the second run uploads nothing. -/
theorem publish_idempotent_witness :
    (runPublish
      ⟨fun _ => .found, fun _ _ => some "cid", fun _ _ => 4, fun _ => true⟩
      (some [⟨true, some "aa", [⟨true, some "7", some "pmtiles"⟩]⟩])
      ((runPublish
        ⟨fun _ => .found, fun _ _ => some "cid", fun _ _ => 4, fun _ => true⟩
        (some [⟨true, some "aa", [⟨true, some "7", some "pmtiles"⟩]⟩])
        []).state.mappings)).uploads = [] :=
  publish_idempotent
    ⟨fun _ => .found, fun _ _ => some "cid", fun _ _ => 4, fun _ => true⟩
    (some [⟨true, some "aa", [⟨true, some "7", some "pmtiles"⟩]⟩]) []
    (fun _ _ => rfl) (fun _ => rfl) rfl

end AnyNode
